import Mathlib

/-!
# Verification of the GeminiSearchMCP conversion-and-captioning pipeline

Shallow embedding of the incremental conversion pipeline of the
GeminiSearchMCP repository, covering:

* `src/reference/markdown_rewriter.py` — the manual markdown image-tag
  scanner, target deduplication, caption fallback chain, caption cache, and
  the rewrite/normalization step;
* `src/reference/converter_runner.py` — the staleness chain
  (`_should_skip_reprocessing`), the bounded conversion retry loop
  (`_convert_to_pdf`), error aggregation and the manifest refresh flag of
  `run_conversion_pipeline`.

Text is modelled as `List Char` with absolute indices, matching Python's
integer string indexing.  Filesystem facts (resolved paths, modification
times, file existence, file bytes) and external collaborators (the SHA-1
digest, percent-decoding, the vision service, the converter) are modelled
as explicit data or function parameters; each definition is translated
from the Python source it names.
-/

namespace GeminiMCP

/-! ## Python string primitives -/

/-- Whitespace recognised by Python's `str.strip` / `str.isspace`
(ASCII subset; the pipeline's markdown is ASCII-spaced). -/
def py_isspace (c : Char) : Bool :=
  c == ' ' || c == '\t' || c == '\n' || c == '\r' || c == '\x0b' || c == '\x0c'

/-- Python `str.lstrip()`. -/
def py_lstrip (l : List Char) : List Char := l.dropWhile py_isspace

/-- Python `str.rstrip()`. -/
def py_rstrip (l : List Char) : List Char := (l.reverse.dropWhile py_isspace).reverse

/-- Python `str.strip()`. -/
def py_strip (l : List Char) : List Char := py_rstrip (py_lstrip l)

/-- `str.strip()` on Lean `String`s. -/
def strip_str (s : String) : String := ⟨py_strip s.toList⟩

/-- Line boundaries recognised by Python `str.splitlines`. -/
def is_line_break (c : Char) : Bool :=
  c == '\n' || c == '\r' || c == '\x0b' || c == '\x0c' || c == '\x1c' ||
  c == '\x1d' || c == '\x1e' || c == '\x85' || c == '\u2028' || c == '\u2029'

/-- Worker for `py_splitlines`: `acc` holds the current line reversed.
A terminating break emits the line; a final unterminated line is emitted
only if non-empty (so `"a\n"` has one line and `""` has none, as in
Python). -/
def py_splitlines_go : List Char → List Char → List (List Char)
  | [], acc => if acc.isEmpty then [] else [acc.reverse]
  | '\r' :: '\n' :: rest, acc => acc.reverse :: py_splitlines_go rest []
  | c :: rest, acc =>
    if is_line_break c then acc.reverse :: py_splitlines_go rest []
    else py_splitlines_go rest (c :: acc)

/-- Python `str.splitlines()`. -/
def py_splitlines (l : List Char) : List (List Char) := py_splitlines_go l []

/-- `pathlib` name of a posix path string: the last path component,
ignoring empty components and `'.'` components. -/
def path_name (s : String) : String :=
  let comps := (s.toList.splitOn '/').filter (fun c => ¬ c.isEmpty ∧ c ≠ ['.'])
  match comps.getLast? with
  | some c => ⟨c⟩
  | none => ""

/-- Index of the last `'.'` in a character list. -/
def find_last_dot : List Char → Option Nat
  | [] => none
  | c :: rest =>
    match find_last_dot rest with
    | some i => some (i + 1)
    | none => if c = '.' then some 0 else none

/-- `pathlib.PurePath.stem`: the name with its suffix removed; a suffix
exists only when the last dot is neither the first nor the last character
of the name. -/
def path_stem (s : String) : String :=
  let name := path_name s
  let cs := name.toList
  match find_last_dot cs with
  | some i => if 0 < i ∧ i + 1 < cs.length then ⟨cs.take i⟩ else name
  | none => name

/-- Python `f"{n:03d}"` for `n : Nat`. -/
def pad3 (n : Nat) : String :=
  let s := toString n
  if s.length < 3 then ⟨List.replicate (3 - s.length) '0'⟩ ++ s else s

/-! ## The markdown image-tag scanner (`markdown_rewriter.py`)

Python scans with an integer cursor that jumps `i += 2` at a backslash;
the translation consumes the escaped character through a `skip` flag, one
list cell per step, which performs the same walk. -/

/-- `_find_closing_bracket`: first unescaped `']'` at or after the start,
with a backslash skipping two characters.  `l` is the suffix of the text
starting at absolute position `i`. -/
def find_closing_bracket_aux : List Char → Bool → Nat → Option Nat
  | [], _, _ => none
  | _ :: rest, true, i => find_closing_bracket_aux rest false (i + 1)
  | c :: rest, false, i =>
    if c = '\\' then find_closing_bracket_aux rest true (i + 1)
    else if c = ']' then some i
    else find_closing_bracket_aux rest false (i + 1)

/-- `_find_closing_bracket(text, start)` (absolute index result). -/
def find_closing_bracket (t : List Char) (start : Nat) : Option Nat :=
  find_closing_bracket_aux (t.drop start) false start

/-- `_find_matching_paren`: balanced-parenthesis matching starting at
depth 1, with the same backslash skipping. -/
def find_matching_paren_aux : List Char → Bool → Nat → Nat → Option Nat
  | [], _, _, _ => none
  | _ :: rest, true, depth, i => find_matching_paren_aux rest false depth (i + 1)
  | c :: rest, false, depth, i =>
    if c = '\\' then find_matching_paren_aux rest true depth (i + 1)
    else if c = '(' then find_matching_paren_aux rest false (depth + 1) (i + 1)
    else if c = ')' then
      if depth = 1 then some i else find_matching_paren_aux rest false (depth - 1) (i + 1)
    else find_matching_paren_aux rest false depth (i + 1)

/-- `_find_matching_paren(text, start)` (absolute index result). -/
def find_matching_paren (t : List Char) (start : Nat) : Option Nat :=
  find_matching_paren_aux (t.drop start) false 1 start

/-- `text.find("![", idx)` worker over the suffix starting at `i`. -/
def find_tag_start_aux : List Char → Nat → Option Nat
  | [], _ => none
  | c :: rest, i =>
    if c = '!' ∧ rest.head? = some '[' then some i
    else find_tag_start_aux rest (i + 1)

/-- `text.find("![", idx)`, as an absolute index. -/
def find_tag_start (t : List Char) (idx : Nat) : Option Nat :=
  find_tag_start_aux (t.drop idx) idx

/-- Python slice `t[a:b]`. -/
def slice (t : List Char) (a b : Nat) : List Char := (t.drop a).take (b - a)

/-- `_extract_destination`'s scan loop: read up to the first unescaped
whitespace; a backslash escapes (and is dropped before) the next
character. -/
def extract_destination_scan : List Char → Bool → List Char
  | [], _ => []
  | c :: rest, true => c :: extract_destination_scan rest false
  | c :: rest, false =>
    if c = '\\' then extract_destination_scan rest true
    else if py_isspace c then []
    else c :: extract_destination_scan rest false

/-- First `'>'` in a list (Python `str.find(">")`), absolute in the list. -/
def find_gt : List Char → Option Nat
  | [] => none
  | c :: rest =>
    if c = '>' then some 0
    else (find_gt rest).map (· + 1)

/-- `_extract_destination`: strip, unwrap `<...>` when a closing `'>'`
exists, otherwise read up to the first unescaped whitespace. -/
def extract_destination (raw : List Char) : List Char :=
  let cleaned := py_strip raw
  match cleaned with
  | [] => []
  | c :: _ =>
    if c = '<' then
      match find_gt cleaned with
      | some closing => (cleaned.take closing).drop 1
      | none => extract_destination_scan cleaned false
    else extract_destination_scan cleaned false

/-- One image tag found by the scanner: the absolute span
`[start, stop)` it occupies, its alt text and extracted destination. -/
structure ImageTag where
  start : Nat
  stop : Nat
  alt_text : List Char
  destination : List Char
deriving DecidableEq, Repr

theorem find_closing_bracket_aux_bounds :
    ∀ (l : List Char) (sk : Bool) (i j : Nat),
      find_closing_bracket_aux l sk i = some j → i ≤ j ∧ j < i + l.length := by
  intro l
  induction l with
  | nil => intro sk i j h; simp [find_closing_bracket_aux] at h
  | cons c rest ih =>
    intro sk i j h
    cases sk with
    | true =>
      have := ih false (i + 1) j h
      simp only [List.length_cons]
      omega
    | false =>
      simp only [find_closing_bracket_aux] at h
      by_cases hc : c = '\\'
      · simp [hc] at h
        have := ih true (i + 1) j h
        simp only [List.length_cons]; omega
      · by_cases hb : c = ']'
        · simp [hc, hb] at h
          simp only [List.length_cons]; omega
        · simp [hc, hb] at h
          have := ih false (i + 1) j h
          simp only [List.length_cons]; omega

theorem find_closing_bracket_bounds {t : List Char} {s j : Nat}
    (h : find_closing_bracket t s = some j) : s ≤ j ∧ j < t.length := by
  have hb := find_closing_bracket_aux_bounds (t.drop s) false s j h
  have hd : (t.drop s).length = t.length - s := List.length_drop s t
  constructor
  · exact hb.1
  · omega

theorem find_matching_paren_aux_bounds :
    ∀ (l : List Char) (sk : Bool) (d i j : Nat),
      find_matching_paren_aux l sk d i = some j → i ≤ j ∧ j < i + l.length := by
  intro l
  induction l with
  | nil => intro sk d i j h; simp [find_matching_paren_aux] at h
  | cons c rest ih =>
    intro sk d i j h
    cases sk with
    | true =>
      have := ih false d (i + 1) j h
      simp only [List.length_cons]; omega
    | false =>
      simp only [find_matching_paren_aux] at h
      by_cases hc : c = '\\'
      · simp [hc] at h
        have := ih true d (i + 1) j h
        simp only [List.length_cons]; omega
      · by_cases ho : c = '('
        · simp [hc, ho] at h
          have := ih false (d + 1) (i + 1) j h
          simp only [List.length_cons]; omega
        · by_cases hcl : c = ')'
          · simp [hc, ho, hcl] at h
            by_cases hd : d = 1
            · simp [hd] at h
              simp only [List.length_cons]; omega
            · simp [hd] at h
              have := ih false (d - 1) (i + 1) j h
              simp only [List.length_cons]; omega
          · simp [hc, ho, hcl] at h
            have := ih false d (i + 1) j h
            simp only [List.length_cons]; omega

theorem find_matching_paren_bounds {t : List Char} {s j : Nat}
    (h : find_matching_paren t s = some j) : s ≤ j ∧ j < t.length := by
  have hb := find_matching_paren_aux_bounds (t.drop s) false 1 s j h
  have hd : (t.drop s).length = t.length - s := List.length_drop s t
  constructor
  · exact hb.1
  · omega

theorem find_tag_start_aux_spec :
    ∀ (l : List Char) (i j : Nat),
      find_tag_start_aux l i = some j →
        i ≤ j ∧ l.get? (j - i) = some '!' ∧ l.get? (j - i + 1) = some '[' := by
  intro l
  induction l with
  | nil => intro i j h; simp [find_tag_start_aux] at h
  | cons c rest ih =>
    intro i j h
    simp only [find_tag_start_aux] at h
    by_cases hc : c = '!' ∧ rest.head? = some '['
    · simp [hc] at h
      subst h
      refine ⟨Nat.le_refl _, ?_, ?_⟩
      · simp [hc.1]
      · simp
        cases rest with
        | nil => simp at hc
        | cons d r2 => simpa using hc.2
    · simp [hc] at h
      obtain ⟨h1, h2, h3⟩ := ih (i + 1) j h
      refine ⟨by omega, ?_, ?_⟩
      · have : j - i = (j - (i + 1)) + 1 := by omega
        rw [this]; simpa using h2
      · have : j - i + 1 = (j - (i + 1) + 1) + 1 := by omega
        rw [this]; simpa using h3

theorem find_tag_start_spec {t : List Char} {idx s : Nat}
    (h : find_tag_start t idx = some s) :
    idx ≤ s ∧ t.get? s = some '!' ∧ t.get? (s + 1) = some '[' := by
  obtain ⟨h1, h2, h3⟩ := find_tag_start_aux_spec (t.drop idx) idx s h
  have e2 : (t.drop idx).get? (s - idx) = t.get? (idx + (s - idx)) := List.get?_drop t idx (s - idx)
  have e3 : (t.drop idx).get? (s - idx + 1) = t.get? (idx + (s - idx + 1)) := List.get?_drop t idx (s - idx + 1)
  have hs : idx + (s - idx) = s := by omega
  have hs1 : idx + (s - idx + 1) = s + 1 := by omega
  refine ⟨h1, ?_, ?_⟩
  · rw [← hs]; rw [e2] at h2; exact h2
  · rw [← hs1]; rw [e3] at h3; exact h3

theorem find_tag_start_lt_length {t : List Char} {idx s : Nat}
    (h : find_tag_start t idx = some s) : s + 1 < t.length := by
  obtain ⟨_, _, h3⟩ := find_tag_start_spec h
  exact (List.get?_eq_some.mp h3).1

/-- `_find_image_tags`: scan from `idx`, collecting tags.  An alt span not
immediately followed by `'('`, or an unbalanced destination, makes the
scan resume just past the closing `']'`; a text with no unescaped `']'`
left ends the scan. -/
def find_image_tags_from (t : List Char) (idx : Nat) : List ImageTag :=
  match h1 : find_tag_start t idx with
  | none => []
  | some s =>
    match h2 : find_closing_bracket t (s + 2) with
    | none => []
    | some alt_end =>
      if t.get? (alt_end + 1) = some '(' then
        match h4 : find_matching_paren t (alt_end + 2) with
        | none => find_image_tags_from t (alt_end + 1)
        | some dest_end =>
          { start := s, stop := dest_end + 1,
            alt_text := slice t (s + 2) alt_end,
            destination := extract_destination (slice t (alt_end + 2) dest_end) } ::
            find_image_tags_from t (dest_end + 1)
      else
        find_image_tags_from t (alt_end + 1)
termination_by t.length - idx
decreasing_by
  · have hs := find_tag_start_spec h1
    have hl := find_tag_start_lt_length h1
    have hb := find_closing_bracket_bounds h2
    omega
  · have hs := find_tag_start_spec h1
    have hl := find_tag_start_lt_length h1
    have hb := find_closing_bracket_bounds h2
    have hp := find_matching_paren_bounds h4
    omega
  · have hs := find_tag_start_spec h1
    have hl := find_tag_start_lt_length h1
    have hb := find_closing_bracket_bounds h2
    omega

/-- `_find_image_tags(text)`. -/
def find_image_tags (t : List Char) : List ImageTag := find_image_tags_from t 0

theorem drop_eq_cons_of_get? {t : List Char} {a : Nat} {c : Char}
    (h : t.get? a = some c) : t.drop a = c :: t.drop (a + 1) := by
  rw [List.get?_eq_getElem?] at h
  obtain ⟨hlt, hc⟩ := List.getElem?_eq_some.mp h
  rw [List.drop_eq_getElem_cons hlt, hc]

theorem drop_succ_of_drop_cons {t : List Char} {a : Nat} {c : Char} {rest : List Char}
    (h : t.drop a = c :: rest) : t.drop (a + 1) = rest := by
  have hd := List.drop_drop 1 a t
  rw [h] at hd
  simpa [Nat.add_comm] using hd.symm

theorem fcb_none_of_len_le {t : List Char} {a : Nat} (h : t.length ≤ a) :
    find_closing_bracket t a = none := by
  unfold find_closing_bracket
  rw [List.drop_eq_nil_of_le h]
  rfl

theorem fcb_step_backslash {t : List Char} {a : Nat}
    (h : t.get? a = some '\\') :
    find_closing_bracket t a = find_closing_bracket t (a + 2) := by
  have hd := drop_eq_cons_of_get? h
  unfold find_closing_bracket
  rw [hd]
  simp only [find_closing_bracket_aux, if_pos rfl]
  cases hd2 : t.drop (a + 1) with
  | nil =>
    have hnil : t.drop (a + 2) = [] := by
      have h2 := List.drop_drop 1 (a + 1) t
      rw [hd2] at h2
      simpa using h2.symm
    rw [hnil]
    rfl
  | cons d rest =>
    have hr : t.drop (a + 2) = rest := by
      have h2 := List.drop_drop 1 (a + 1) t
      rw [hd2] at h2
      simpa using h2.symm
    rw [hr]
    rfl

theorem fcb_step_close {t : List Char} {a : Nat}
    (h : t.get? a = some ']') : find_closing_bracket t a = some a := by
  have hd := drop_eq_cons_of_get? h
  unfold find_closing_bracket
  rw [hd]
  simp [find_closing_bracket_aux]

theorem fcb_step_other {t : List Char} {a : Nat} {c : Char}
    (h : t.get? a = some c) (h1 : c ≠ '\\') (h2 : c ≠ ']') :
    find_closing_bracket t a = find_closing_bracket t (a + 1) := by
  have hd := drop_eq_cons_of_get? h
  unfold find_closing_bracket
  rw [hd]
  simp [find_closing_bracket_aux, h1, h2]

/-- The key staleness fact behind the scanner's `break`: a later `'['`
(in particular the `'['` of any later `"!["`) is always reached by the
escape-aware walk, so if the walk from `a` finds no unescaped `']'` in
the rest of the text, neither does the walk starting right after that
`'['`.  Hence no later candidate can be well formed. -/
theorem fcb_none_cover (t : List Char) (a b : Nat) (hab : a ≤ b)
    (hb : t.get? b = some '[') (h : find_closing_bracket t a = none) :
    find_closing_bracket t (b + 1) = none := by
  by_cases heq : a = b
  · subst heq
    have hstep := fcb_step_other hb (by decide) (by decide)
    rw [← hstep]
    exact h
  · have hlt : a < b := lt_of_le_of_ne hab heq
    have hlen : b < t.length := (List.get?_eq_some.mp hb).1
    cases hga : t.get? a with
    | none =>
      have := List.get?_eq_none.mp hga
      omega
    | some c =>
      by_cases hbs : c = '\\'
      · subst hbs
        have hstep := fcb_step_backslash hga
        rw [hstep] at h
        by_cases h2 : a + 2 = b + 1
        · rw [← h2]
          exact h
        · exact fcb_none_cover t (a + 2) b (by omega) hb h
      · by_cases hcl : c = ']'
        · subst hcl
          rw [fcb_step_close hga] at h
          exact absurd h (by simp)
        · have hstep := fcb_step_other hga hbs hcl
          rw [hstep] at h
          exact fcb_none_cover t (a + 1) b (by omega) hb h
termination_by b + 1 - a

/-! Branch equations for `find_image_tags_from` (its well-founded
recursion does not unfold definitionally). -/

theorem find_image_tags_from_start_none {t : List Char} {idx : Nat}
    (h : find_tag_start t idx = none) : find_image_tags_from t idx = [] := by
  rw [find_image_tags_from.eq_def]
  split
  · rfl
  · rename_i s h1
    exact absurd (h.symm.trans h1) (by simp)

theorem find_image_tags_from_alt_none {t : List Char} {idx s : Nat}
    (h1 : find_tag_start t idx = some s)
    (h2 : find_closing_bracket t (s + 2) = none) :
    find_image_tags_from t idx = [] := by
  rw [find_image_tags_from.eq_def]
  split
  · rename_i h1'
    exact absurd (h1.symm.trans h1') (by simp)
  · rename_i s' h1'
    obtain rfl : s = s' := by
      have := h1.symm.trans h1'
      injection this
    split
    · rfl
    · rename_i alt_end h2'
      exact absurd (h2.symm.trans h2') (by simp)

theorem find_image_tags_from_no_paren {t : List Char} {idx s alt_end : Nat}
    (h1 : find_tag_start t idx = some s)
    (h2 : find_closing_bracket t (s + 2) = some alt_end)
    (h3 : ¬ t.get? (alt_end + 1) = some '(') :
    find_image_tags_from t idx = find_image_tags_from t (alt_end + 1) := by
  rw [find_image_tags_from.eq_def]
  split
  · rename_i h1'
    exact absurd (h1.symm.trans h1') (by simp)
  · rename_i s' h1'
    obtain rfl : s = s' := by
      have := h1.symm.trans h1'
      injection this
    split
    · rename_i h2'
      exact absurd (h2.symm.trans h2') (by simp)
    · rename_i alt_end' h2'
      obtain rfl : alt_end = alt_end' := by
        have := h2.symm.trans h2'
        injection this
      rw [if_neg h3]

theorem find_image_tags_from_paren_none {t : List Char} {idx s alt_end : Nat}
    (h1 : find_tag_start t idx = some s)
    (h2 : find_closing_bracket t (s + 2) = some alt_end)
    (h3 : t.get? (alt_end + 1) = some '(')
    (h4 : find_matching_paren t (alt_end + 2) = none) :
    find_image_tags_from t idx = find_image_tags_from t (alt_end + 1) := by
  rw [find_image_tags_from.eq_def]
  split
  · rename_i h1'
    exact absurd (h1.symm.trans h1') (by simp)
  · rename_i s' h1'
    obtain rfl : s = s' := by
      have := h1.symm.trans h1'
      injection this
    split
    · rename_i h2'
      exact absurd (h2.symm.trans h2') (by simp)
    · rename_i alt_end' h2'
      obtain rfl : alt_end = alt_end' := by
        have := h2.symm.trans h2'
        injection this
      rw [if_pos h3]
      split
      · rfl
      · rename_i dest_end h4'
        exact absurd (h4.symm.trans h4') (by simp)

theorem find_image_tags_from_found {t : List Char} {idx s alt_end dest_end : Nat}
    (h1 : find_tag_start t idx = some s)
    (h2 : find_closing_bracket t (s + 2) = some alt_end)
    (h3 : t.get? (alt_end + 1) = some '(')
    (h4 : find_matching_paren t (alt_end + 2) = some dest_end) :
    find_image_tags_from t idx =
      { start := s, stop := dest_end + 1,
        alt_text := slice t (s + 2) alt_end,
        destination := extract_destination (slice t (alt_end + 2) dest_end) } ::
        find_image_tags_from t (dest_end + 1) := by
  rw [find_image_tags_from.eq_def]
  split
  · rename_i h1'
    exact absurd (h1.symm.trans h1') (by simp)
  · rename_i s' h1'
    obtain rfl : s = s' := by
      have := h1.symm.trans h1'
      injection this
    split
    · rename_i h2'
      exact absurd (h2.symm.trans h2') (by simp)
    · rename_i alt_end' h2'
      obtain rfl : alt_end = alt_end' := by
        have := h2.symm.trans h2'
        injection this
      rw [if_pos h3]
      split
      · rename_i h4'
        exact absurd (h4.symm.trans h4') (by simp)
      · rename_i dest_end' h4'
        obtain rfl : dest_end = dest_end' := by
          have := h4.symm.trans h4'
          injection this
        rfl

/-! ## The scanner as the specification words it

The specification says malformed candidates "yield no tag and the scan
resumes past the malformed span without raising".  The code instead ends
the whole scan when the alt span has no closing `']'`.  The spec-side
scanner below resumes past the `"!["` in that case; `fcb_none_cover`
shows both behaviours return the same tags. -/

/-- Scanner following the specification sentence: identical to
`_find_image_tags` except that a candidate with an unterminated alt span
is skipped and the scan resumes just past its opening `"!["`. -/
def spec_find_image_tags_from (t : List Char) (idx : Nat) : List ImageTag :=
  match h1 : find_tag_start t idx with
  | none => []
  | some s =>
    match h2 : find_closing_bracket t (s + 2) with
    | none => spec_find_image_tags_from t (s + 2)
    | some alt_end =>
      if t.get? (alt_end + 1) = some '(' then
        match h4 : find_matching_paren t (alt_end + 2) with
        | none => spec_find_image_tags_from t (alt_end + 1)
        | some dest_end =>
          { start := s, stop := dest_end + 1,
            alt_text := slice t (s + 2) alt_end,
            destination := extract_destination (slice t (alt_end + 2) dest_end) } ::
            spec_find_image_tags_from t (dest_end + 1)
      else
        spec_find_image_tags_from t (alt_end + 1)
termination_by t.length - idx
decreasing_by
  · have hs := find_tag_start_spec h1
    have hl := find_tag_start_lt_length h1
    omega
  · have hs := find_tag_start_spec h1
    have hl := find_tag_start_lt_length h1
    have hb := find_closing_bracket_bounds h2
    omega
  · have hs := find_tag_start_spec h1
    have hl := find_tag_start_lt_length h1
    have hb := find_closing_bracket_bounds h2
    have hp := find_matching_paren_bounds h4
    omega
  · have hs := find_tag_start_spec h1
    have hl := find_tag_start_lt_length h1
    have hb := find_closing_bracket_bounds h2
    omega

/-- The spec scanner over the whole text. -/
def spec_find_image_tags (t : List Char) : List ImageTag :=
  spec_find_image_tags_from t 0

theorem spec_tags_start_none {t : List Char} {idx : Nat}
    (h : find_tag_start t idx = none) : spec_find_image_tags_from t idx = [] := by
  rw [spec_find_image_tags_from.eq_def]
  split
  · rfl
  · rename_i s h1
    exact absurd (h.symm.trans h1) (by simp)

theorem spec_tags_alt_none {t : List Char} {idx s : Nat}
    (h1 : find_tag_start t idx = some s)
    (h2 : find_closing_bracket t (s + 2) = none) :
    spec_find_image_tags_from t idx = spec_find_image_tags_from t (s + 2) := by
  rw [spec_find_image_tags_from.eq_def]
  split
  · rename_i h1'
    exact absurd (h1.symm.trans h1') (by simp)
  · rename_i s' h1'
    obtain rfl : s = s' := by
      have := h1.symm.trans h1'
      injection this
    split
    · rfl
    · rename_i alt_end h2'
      exact absurd (h2.symm.trans h2') (by simp)

theorem spec_tags_no_paren {t : List Char} {idx s alt_end : Nat}
    (h1 : find_tag_start t idx = some s)
    (h2 : find_closing_bracket t (s + 2) = some alt_end)
    (h3 : ¬ t.get? (alt_end + 1) = some '(') :
    spec_find_image_tags_from t idx = spec_find_image_tags_from t (alt_end + 1) := by
  rw [spec_find_image_tags_from.eq_def]
  split
  · rename_i h1'
    exact absurd (h1.symm.trans h1') (by simp)
  · rename_i s' h1'
    obtain rfl : s = s' := by
      have := h1.symm.trans h1'
      injection this
    split
    · rename_i h2'
      exact absurd (h2.symm.trans h2') (by simp)
    · rename_i alt_end' h2'
      obtain rfl : alt_end = alt_end' := by
        have := h2.symm.trans h2'
        injection this
      rw [if_neg h3]

theorem spec_tags_paren_none {t : List Char} {idx s alt_end : Nat}
    (h1 : find_tag_start t idx = some s)
    (h2 : find_closing_bracket t (s + 2) = some alt_end)
    (h3 : t.get? (alt_end + 1) = some '(')
    (h4 : find_matching_paren t (alt_end + 2) = none) :
    spec_find_image_tags_from t idx = spec_find_image_tags_from t (alt_end + 1) := by
  rw [spec_find_image_tags_from.eq_def]
  split
  · rename_i h1'
    exact absurd (h1.symm.trans h1') (by simp)
  · rename_i s' h1'
    obtain rfl : s = s' := by
      have := h1.symm.trans h1'
      injection this
    split
    · rename_i h2'
      exact absurd (h2.symm.trans h2') (by simp)
    · rename_i alt_end' h2'
      obtain rfl : alt_end = alt_end' := by
        have := h2.symm.trans h2'
        injection this
      rw [if_pos h3]
      split
      · rfl
      · rename_i dest_end h4'
        exact absurd (h4.symm.trans h4') (by simp)

theorem spec_tags_found {t : List Char} {idx s alt_end dest_end : Nat}
    (h1 : find_tag_start t idx = some s)
    (h2 : find_closing_bracket t (s + 2) = some alt_end)
    (h3 : t.get? (alt_end + 1) = some '(')
    (h4 : find_matching_paren t (alt_end + 2) = some dest_end) :
    spec_find_image_tags_from t idx =
      { start := s, stop := dest_end + 1,
        alt_text := slice t (s + 2) alt_end,
        destination := extract_destination (slice t (alt_end + 2) dest_end) } ::
        spec_find_image_tags_from t (dest_end + 1) := by
  rw [spec_find_image_tags_from.eq_def]
  split
  · rename_i h1'
    exact absurd (h1.symm.trans h1') (by simp)
  · rename_i s' h1'
    obtain rfl : s = s' := by
      have := h1.symm.trans h1'
      injection this
    split
    · rename_i h2'
      exact absurd (h2.symm.trans h2') (by simp)
    · rename_i alt_end' h2'
      obtain rfl : alt_end = alt_end' := by
        have := h2.symm.trans h2'
        injection this
      rw [if_pos h3]
      split
      · rename_i h4'
        exact absurd (h4.symm.trans h4') (by simp)
      · rename_i dest_end' h4'
        obtain rfl : dest_end = dest_end' := by
          have := h4.symm.trans h4'
          injection this
        rfl

/-- After an unterminated candidate the spec scanner finds nothing more:
every later candidate alt span is also unterminated (`fcb_none_cover`). -/
theorem spec_tags_nil_of_fcb_none (t : List Char) (idx a : Nat)
    (ha : a ≤ idx) (h : find_closing_bracket t a = none) :
    spec_find_image_tags_from t idx = [] := by
  cases h1 : find_tag_start t idx with
  | none => exact spec_tags_start_none h1
  | some s =>
    have hs := find_tag_start_spec h1
    have hcov : find_closing_bracket t (s + 2) = none :=
      fcb_none_cover t a (s + 1) (by omega) hs.2.2 h
    rw [spec_tags_alt_none h1 hcov]
    exact spec_tags_nil_of_fcb_none t (s + 2) a (by omega) h
termination_by t.length - idx
decreasing_by
  have hl := find_tag_start_lt_length h1
  omega

/-- The code scanner and the spec scanner agree on every input. -/
theorem find_image_tags_from_eq_spec (t : List Char) (idx : Nat) :
    find_image_tags_from t idx = spec_find_image_tags_from t idx := by
  cases h1 : find_tag_start t idx with
  | none => rw [find_image_tags_from_start_none h1, spec_tags_start_none h1]
  | some s =>
    cases h2 : find_closing_bracket t (s + 2) with
    | none =>
      rw [find_image_tags_from_alt_none h1 h2, spec_tags_alt_none h1 h2,
        spec_tags_nil_of_fcb_none t (s + 2) (s + 2) le_rfl h2]
    | some alt_end =>
      by_cases h3 : t.get? (alt_end + 1) = some '('
      · cases h4 : find_matching_paren t (alt_end + 2) with
        | none =>
          rw [find_image_tags_from_paren_none h1 h2 h3 h4,
            spec_tags_paren_none h1 h2 h3 h4]
          exact find_image_tags_from_eq_spec t (alt_end + 1)
        | some dest_end =>
          rw [find_image_tags_from_found h1 h2 h3 h4,
            spec_tags_found h1 h2 h3 h4,
            find_image_tags_from_eq_spec t (dest_end + 1)]
      · rw [find_image_tags_from_no_paren h1 h2 h3,
          spec_tags_no_paren h1 h2 h3]
        exact find_image_tags_from_eq_spec t (alt_end + 1)
termination_by t.length - idx
decreasing_by
  · have hs := find_tag_start_spec h1
    have hl := find_tag_start_lt_length h1
    have hb := find_closing_bracket_bounds h2
    omega
  · have hs := find_tag_start_spec h1
    have hl := find_tag_start_lt_length h1
    have hb := find_closing_bracket_bounds h2
    have hp := find_matching_paren_bounds h4
    omega
  · have hs := find_tag_start_spec h1
    have hl := find_tag_start_lt_length h1
    have hb := find_closing_bracket_bounds h2
    omega

/-- Structural (fuel-indexed) version of the scanner loop, used to
evaluate the well-founded `find_image_tags_from` on concrete inputs. -/
def find_image_tags_fuel : Nat → List Char → Nat → List ImageTag
  | 0, _, _ => []
  | fuel + 1, t, idx =>
    match find_tag_start t idx with
    | none => []
    | some s =>
      match find_closing_bracket t (s + 2) with
      | none => []
      | some alt_end =>
        if t.get? (alt_end + 1) = some '(' then
          match find_matching_paren t (alt_end + 2) with
          | none => find_image_tags_fuel fuel t (alt_end + 1)
          | some dest_end =>
            { start := s, stop := dest_end + 1,
              alt_text := slice t (s + 2) alt_end,
              destination := extract_destination (slice t (alt_end + 2) dest_end) } ::
              find_image_tags_fuel fuel t (dest_end + 1)
        else
          find_image_tags_fuel fuel t (alt_end + 1)

theorem find_image_tags_fuel_eq (fuel : Nat) :
    ∀ (t : List Char) (idx : Nat), t.length - idx ≤ fuel →
      find_image_tags_fuel fuel t idx = find_image_tags_from t idx := by
  induction fuel with
  | zero =>
    intro t idx h
    have hstart : find_tag_start t idx = none := by
      unfold find_tag_start
      rw [List.drop_eq_nil_of_le (by omega)]
      rfl
    rw [find_image_tags_from_start_none hstart]
    rfl
  | succ fuel ih =>
    intro t idx h
    cases h1 : find_tag_start t idx with
    | none =>
      rw [find_image_tags_from_start_none h1]
      simp [find_image_tags_fuel, h1]
    | some s =>
      have hs := find_tag_start_spec h1
      have hl := find_tag_start_lt_length h1
      cases h2 : find_closing_bracket t (s + 2) with
      | none =>
        rw [find_image_tags_from_alt_none h1 h2]
        simp [find_image_tags_fuel, h1, h2]
      | some alt_end =>
        have hb := find_closing_bracket_bounds h2
        by_cases h3 : t.get? (alt_end + 1) = some '('
        · cases h4 : find_matching_paren t (alt_end + 2) with
          | none =>
            rw [find_image_tags_from_paren_none h1 h2 h3 h4]
            simp only [find_image_tags_fuel, h1, h2, h4, if_pos h3]
            exact ih t (alt_end + 1) (by omega)
          | some dest_end =>
            have hp := find_matching_paren_bounds h4
            rw [find_image_tags_from_found h1 h2 h3 h4]
            simp only [find_image_tags_fuel, h1, h2, h4, if_pos h3]
            rw [ih t (dest_end + 1) (by omega)]
        · rw [find_image_tags_from_no_paren h1 h2 h3]
          simp only [find_image_tags_fuel, h1, h2, if_neg h3]
          exact ih t (alt_end + 1) (by omega)

/-- Evaluate the scanner on a concrete text. -/
theorem find_image_tags_eval (t : List Char) :
    find_image_tags t = find_image_tags_fuel t.length t 0 := by
  rw [find_image_tags, ← find_image_tags_fuel_eq t.length t 0 (by omega)]

/-- Every tag the scanner returns lies inside the text, after the scan
position, and the returned spans are disjoint and left-to-right. -/
theorem find_image_tags_from_sorted (t : List Char) (idx : Nat) :
    (∀ tag ∈ find_image_tags_from t idx,
        idx ≤ tag.start ∧ tag.start < tag.stop ∧ tag.stop ≤ t.length) ∧
      (find_image_tags_from t idx).Chain' (fun a b => a.stop ≤ b.start) := by
  cases h1 : find_tag_start t idx with
  | none =>
    rw [find_image_tags_from_start_none h1]
    exact ⟨by simp, by simp⟩
  | some s =>
    have hs := find_tag_start_spec h1
    have hl := find_tag_start_lt_length h1
    cases h2 : find_closing_bracket t (s + 2) with
    | none =>
      rw [find_image_tags_from_alt_none h1 h2]
      exact ⟨by simp, by simp⟩
    | some alt_end =>
      have hb := find_closing_bracket_bounds h2
      by_cases h3 : t.get? (alt_end + 1) = some '('
      · cases h4 : find_matching_paren t (alt_end + 2) with
        | none =>
          rw [find_image_tags_from_paren_none h1 h2 h3 h4]
          have ihr := find_image_tags_from_sorted t (alt_end + 1)
          refine ⟨fun tag hm => ?_, ihr.2⟩
          have := ihr.1 tag hm
          omega
        | some dest_end =>
          have hp := find_matching_paren_bounds h4
          rw [find_image_tags_from_found h1 h2 h3 h4]
          have ihr := find_image_tags_from_sorted t (dest_end + 1)
          constructor
          · intro tag hm
            rcases List.mem_cons.mp hm with hm | hm
            · subst hm
              simp only []
              omega
            · have := ihr.1 tag hm
              omega
          · rw [List.chain'_cons']
            refine ⟨fun b hbm => ?_, ihr.2⟩
            have hbmem : b ∈ find_image_tags_from t (dest_end + 1) :=
              List.mem_of_mem_head? hbm
            have := ihr.1 b hbmem
            simp only []
            omega
      · rw [find_image_tags_from_no_paren h1 h2 h3]
        have ihr := find_image_tags_from_sorted t (alt_end + 1)
        refine ⟨fun tag hm => ?_, ihr.2⟩
        have := ihr.1 tag hm
        omega
termination_by t.length - idx
decreasing_by
  · omega
  · omega
  · omega

/-! `_extract_destination` as the specification words it. -/

/-- Destination reader from the spec sentence: read up to the first
unescaped whitespace, an escaped character is kept (sans backslash). -/
def spec_dest_scan : List Char → List Char
  | [] => []
  | c :: rest =>
    if c = '\\' then
      match rest with
      | [] => []
      | d :: rest2 => d :: spec_dest_scan rest2
    else if py_isspace c then [] else c :: spec_dest_scan rest

/-- `_extract_destination` from the spec sentence: a destination wrapped
in angle brackets is unwrapped, otherwise it is read up to the first
unescaped whitespace. -/
def spec_extract_destination (raw : List Char) : List Char :=
  let cleaned := py_strip raw
  match cleaned with
  | [] => []
  | c :: _ =>
    if c = '<' then
      match find_gt cleaned with
      | some closing => (cleaned.take closing).drop 1
      | none => spec_dest_scan cleaned
    else spec_dest_scan cleaned

theorem spec_dest_scan_cons (c : Char) (rest : List Char) :
    spec_dest_scan (c :: rest) =
      if c = '\\' then
        (match rest with
        | [] => []
        | d :: rest2 => d :: spec_dest_scan rest2)
      else if py_isspace c then [] else c :: spec_dest_scan rest := by
  rw [spec_dest_scan.eq_def]

theorem extract_destination_scan_eq_spec :
    ∀ (n : Nat) (l : List Char), l.length ≤ n →
      extract_destination_scan l false = spec_dest_scan l := by
  intro n
  induction n with
  | zero =>
    intro l hl
    have : l = [] := List.eq_nil_of_length_eq_zero (by omega)
    subst this
    rfl
  | succ n ih =>
    intro l hl
    cases l with
    | nil => rfl
    | cons c rest =>
      by_cases hc : c = '\\'
      · subst hc
        cases rest with
        | nil => rfl
        | cons d rest2 =>
          have h2 : rest2.length ≤ n := by simp at hl; omega
          simp [extract_destination_scan, spec_dest_scan, ih rest2 h2]
      · have h2 : rest.length ≤ n := by simp at hl; omega
        rw [spec_dest_scan_cons]
        by_cases hw : py_isspace c
        · simp [extract_destination_scan, hc, hw]
        · simp [extract_destination_scan, hc, hw, ih rest h2]

theorem extract_destination_eq_spec (raw : List Char) :
    extract_destination raw = spec_extract_destination raw := by
  unfold extract_destination spec_extract_destination
  cases h : py_strip raw with
  | nil => rfl
  | cons c rest =>
    simp only []
    by_cases hc : c = '<'
    · rw [if_pos hc, if_pos hc]
      cases hg : find_gt (c :: rest) with
      | none =>
        exact extract_destination_scan_eq_spec (c :: rest).length _ le_rfl
      | some closing => rfl
    · rw [if_neg hc, if_neg hc]
      exact extract_destination_scan_eq_spec (c :: rest).length _ le_rfl

/-! ## Caption rewriting (`rewrite_markdown_with_captions`)

`_resolve_image_path` is pure filesystem work; it is modelled as a
function from a raw destination to an optional resolved file.  A resolved
file carries the canonical facts the rewriter reads from it. -/

/-- A resolved image file.  `key` is `resolved.resolve().as_posix()` (the
canonical identity used by `_make_target_key`), `stem` is `Path.stem`,
`path_str` is `str(path)`, `file_exists` is `.exists()`, and `blob` is
the result of `read_bytes()` (`none` models an `OSError`). -/
structure FileRef where
  key : String
  stem : String
  path_str : String
  file_exists : Bool
  blob : Option (List Nat)
deriving DecidableEq, Repr

/-- Ambient collaborators of the rewrite pass.  `resolve` models
`_resolve_image_path` (filesystem search), `unquote` models
`urllib.parse.unquote`, `vision_ok` models `ensure_api_key("gemini")`
succeeding, `vision` models `caption_images` keyed by `FileRef.key`,
`model_key` is the stripped vision-model identifier, and `digest` models
`hashlib.sha1(blob).hexdigest()`. -/
structure RewriteEnv where
  resolve : List Char → Option FileRef
  unquote : String → String
  vision_ok : Bool
  vision : List String → List (String × String)
  model_key : String
  digest : List Nat → String

/-- The per-tag record built in the first loop of
`rewrite_markdown_with_captions` (its `entries` dict). -/
structure MediaEntry where
  span_start : Nat
  span_stop : Nat
  alt : String
  raw_path : String
  resolved : Option FileRef
  fallback : String
deriving DecidableEq, Repr

/-- One `entries` element: the stripped alt, resolution, and the
`alt or Path(unquote(dest)).stem or "[이미지]"` fallback (guarded once
more against empty when stored). -/
def mk_entry (env : RewriteEnv) (tag : ImageTag) : MediaEntry :=
  let alt : String := ⟨py_strip tag.alt_text⟩
  let rawPath : String := ⟨tag.destination⟩
  let resolved := env.resolve tag.destination
  let fb := if alt ≠ "" then alt
    else if path_stem (env.unquote rawPath) ≠ "" then path_stem (env.unquote rawPath)
    else "[이미지]"
  { span_start := tag.start, span_stop := tag.stop, alt := alt,
    raw_path := rawPath, resolved := resolved,
    fallback := if fb ≠ "" then fb else "[이미지]" }

/-- `_make_target_key`: resolved canonical path, or the raw destination
string when unresolved. -/
def make_target_key (resolved : Option FileRef) (raw_path : String) : String :=
  match resolved with
  | some r => r.key
  | none => raw_path

/-- The deduplication key of an entry. -/
def entry_key (e : MediaEntry) : String := make_target_key e.resolved e.raw_path

/-- One deduplicated media target (`targets` element): asset identity,
first-seen resolution/raw path, and the accumulated alt candidates. -/
structure MediaBucket where
  id : String
  resolved : Option FileRef
  raw_path : String
  alts : List String
deriving DecidableEq, Repr

/-- The deduplication key of a bucket (the key it was stored under). -/
def bucket_key (b : MediaBucket) : String := make_target_key b.resolved b.raw_path

/-- One step of the dedup loop: append the entry's alt to an existing
bucket with the same target key, or open a new bucket whose asset id is
`f"{source_hash}_img_{len(targets):03d}"`. -/
def add_entry_to_buckets (source_hash : String) (buckets : List MediaBucket)
    (e : MediaEntry) : List MediaBucket :=
  if buckets.any (fun b => bucket_key b = entry_key e) then
    buckets.map (fun b =>
      if bucket_key b = entry_key e then { b with alts := b.alts ++ [e.alt] } else b)
  else
    buckets ++ [{ id := source_hash ++ "_img_" ++ pad3 buckets.length,
                  resolved := e.resolved, raw_path := e.raw_path, alts := [e.alt] }]

/-- The `targets` list after the dedup loop. -/
def mk_buckets (source_hash : String) (entries : List MediaEntry) : List MediaBucket :=
  entries.foldl (add_entry_to_buckets source_hash) []

/-- The `entry["asset_id"]` assigned to an entry: the id of the (unique)
bucket holding its target key. -/
def asset_id_of (source_hash : String) (entries : List MediaEntry)
    (e : MediaEntry) : String :=
  match (mk_buckets source_hash entries).find? (fun b => bucket_key b = entry_key e) with
  | some b => b.id
  | none => ""

/-- `_fallback_caption`: first non-blank alt (stripped), else the
resolved file's stem, else the raw path's stem, else the raw path, else
the placeholder. -/
def fallback_caption (env : RewriteEnv) (b : MediaBucket) : String :=
  match b.alts.find? (fun a => strip_str a ≠ "") with
  | some a => strip_str a
  | none =>
    match b.resolved with
    | some r => r.stem
    | none =>
      if b.raw_path ≠ "" then
        let name := path_stem (env.unquote b.raw_path)
        if name ≠ "" then name else b.raw_path
      else "[이미지]"

/-! ### The caption lookup (`_generate_caption_lookup`) -/

/-- Association lists standing in for Python dicts (first match wins for
lookup; insertion replaces in place or appends, as dict assignment). -/
def assoc_find {α : Type} (d : List (String × α)) (k : String) : Option α :=
  (d.find? (fun p => p.1 = k)).map (·.2)

/-- Dict assignment `d[k] = v`: replace in place (keeping the key's
insertion position, as Python dicts do) or append. -/
def assoc_insert {α : Type} : List (String × α) → String → α → List (String × α)
  | [], k, v => [(k, v)]
  | p :: rest, k, v =>
    if p.1 = k then (k, v) :: rest else p :: assoc_insert rest k v

/-- What `_generate_caption_lookup` reads from each target. -/
structure CaptionTarget where
  id : String
  resolved : Option FileRef
deriving DecidableEq, Repr

/-- Targets whose resolved file exists (`existing` in the code). -/
def caption_candidates (targets : List CaptionTarget) : List CaptionTarget :=
  targets.filter (fun t =>
    match t.resolved with
    | some r => r.file_exists
    | none => false)

/-- State of the cache pass over `existing`. -/
structure CachePassState where
  captions : List (String × String)
  to_request : List String
  req_lookup : List (String × (String × String))
deriving DecidableEq, Repr

/-- The cache key of a candidate with bytes `blob`:
`f"{model_key}::{sha1(blob).hexdigest()}"`. -/
def cache_key_of (env : RewriteEnv) (blob : List Nat) : String :=
  env.model_key ++ "::" ++ env.digest blob

/-- One iteration of the cached-mode loop: unreadable files are skipped;
a non-blank cached caption is used directly; otherwise the file is
queued for the vision request. -/
def cache_pass_step (env : RewriteEnv) (cache : List (String × String))
    (st : CachePassState) (t : CaptionTarget) : CachePassState :=
  match t.resolved with
  | none => st
  | some r =>
    match r.blob with
    | none => st
    | some blob =>
      let key := cache_key_of env blob
      match assoc_find cache key with
      | some cached =>
        if strip_str cached ≠ "" then
          { st with captions := assoc_insert st.captions t.id (strip_str cached) }
        else
          { st with to_request := st.to_request ++ [r.key],
                    req_lookup := assoc_insert st.req_lookup r.key (t.id, key) }
      | none =>
        { st with to_request := st.to_request ++ [r.key],
                  req_lookup := assoc_insert st.req_lookup r.key (t.id, key) }

/-- Decision of `cache_pass_step` for a single target (used to state the
fold as a `filterMap`): the request the target contributes, if any. -/
def request_key_of (env : RewriteEnv) (cache : List (String × String))
    (t : CaptionTarget) : Option String :=
  match t.resolved with
  | none => none
  | some r =>
    match r.blob with
    | none => none
    | some blob =>
      match assoc_find cache (cache_key_of env blob) with
      | some cached => if strip_str cached ≠ "" then none else some r.key
      | none => some r.key

/-- State of the vision-merge loop over `raw.items()`. -/
structure VisionMergeState where
  captions : List (String × String)
  cache : List (String × String)
  changed : Bool
deriving DecidableEq, Repr

/-- One iteration over a `(path, text)` pair returned by the vision
service: unknown paths and blank texts are skipped; otherwise the caption
is recorded and the cache entry is updated (marking `changed`) when it
differs from the current one. -/
def merge_vision_step (req_lookup : List (String × (String × String)))
    (st : VisionMergeState) (p : String × String) : VisionMergeState :=
  match assoc_find req_lookup p.1 with
  | none => st
  | some entry =>
    if p.2 = "" then st
    else if strip_str p.2 = "" then st
    else if assoc_find st.cache entry.2 ≠ some (strip_str p.2) then
      { captions := assoc_insert st.captions entry.1 (strip_str p.2),
        cache := assoc_insert st.cache entry.2 (strip_str p.2),
        changed := true }
    else
      { st with captions := assoc_insert st.captions entry.1 (strip_str p.2) }

/-- Result of one `_generate_caption_lookup` call.  `requested` is the
list of file keys sent to the vision service (empty when no request was
made), `saved` records whether the cache file was rewritten (which the
code does at most once, at the end of the pass). -/
structure CaptionLookupResult where
  captions : List (String × String)
  requested : List String
  new_cache : List (String × String)
  saved : Bool
deriving DecidableEq, Repr

/-- `_generate_caption_lookup` with caching enabled.  `cache0` is the
loaded on-disk cache, `cache_file_present`/`unlink_ok` model
`cache_path.exists()` and a successful `unlink` for the clear-cache
flag.  Missing credentials empty the request list (captioning skipped
with a warning); a non-empty request list triggers exactly one vision
call and at most one cache write, only when some entry changed. -/
def generate_caption_lookup_cached (env : RewriteEnv)
    (cache0 : List (String × String)) (cache_file_present clear_cache unlink_ok : Bool)
    (targets : List CaptionTarget) : CaptionLookupResult :=
  let existing := caption_candidates targets
  if existing.isEmpty then ⟨[], [], cache0, false⟩
  else
    let cache1 := if clear_cache ∧ cache_file_present ∧ unlink_ok then [] else cache0
    let st := existing.foldl (cache_pass_step env cache1) ⟨[], [], []⟩
    let to_req := if st.to_request ≠ [] ∧ ¬ env.vision_ok then [] else st.to_request
    if to_req.isEmpty then ⟨st.captions, [], cache1, false⟩
    else
      let rawPairs := env.vision to_req
      let m := rawPairs.foldl (merge_vision_step st.req_lookup)
        ⟨st.captions, cache1, false⟩
      ⟨m.captions, to_req, m.cache, m.changed⟩

/-- `_generate_caption_lookup` with `disable_cache=True`: one batched
vision call for every existing target (none when the credential check
fails), results stripped, entries kept only when the service returned a
non-empty text.  The cache is neither read nor written. -/
def generate_caption_lookup_nocache (env : RewriteEnv)
    (cache0 : List (String × String)) (targets : List CaptionTarget) :
    CaptionLookupResult :=
  let existing := caption_candidates targets
  if existing.isEmpty then ⟨[], [], cache0, false⟩
  else if ¬ env.vision_ok then ⟨[], [], cache0, false⟩
  else
    let keys := existing.filterMap (fun t => t.resolved.map (·.key))
    let rawPairs := env.vision keys
    let captions := existing.foldl (fun acc t =>
      match t.resolved with
      | none => acc
      | some r =>
        match assoc_find rawPairs r.key with
        | some v => if v ≠ "" then assoc_insert acc t.id (strip_str v) else acc
        | none => acc) []
    ⟨captions, keys, cache0, false⟩

/-- `_generate_caption_lookup` (both modes). -/
def generate_caption_lookup (env : RewriteEnv) (cache0 : List (String × String))
    (cache_file_present clear_cache unlink_ok disable_cache : Bool)
    (targets : List CaptionTarget) : CaptionLookupResult :=
  if disable_cache then generate_caption_lookup_nocache env cache0 targets
  else generate_caption_lookup_cached env cache0 cache_file_present clear_cache unlink_ok targets

/-! ### The rewrite pass -/

def CAPTION_START_MARKER : String := "<!---MEDIA CAPTION STARTS --->"

def CAPTION_END_MARKER : String := "<!---MEDIA CAPTION ENDS --->"

/-- `_normalize_markdown`: join the rstripped lines and append one final
newline when there was at least one line. -/
def normalize_markdown (text : List Char) : List Char :=
  let lines := py_splitlines text
  let normalized := List.intercalate ['\n'] (lines.map py_rstrip)
  if lines.isEmpty then normalized else normalized ++ ['\n']

/-- The final caption of a bucket:
`caption_lookup.get(id) or _fallback_caption(bucket)`, replaced by the
placeholder when blank. -/
def bucket_caption (env : RewriteEnv) (cap_lookup : List (String × String))
    (b : MediaBucket) : String :=
  if strip_str (if (assoc_find cap_lookup b.id).getD "" ≠ "" then
      (assoc_find cap_lookup b.id).getD "" else fallback_caption env b) ≠ "" then
    (if (assoc_find cap_lookup b.id).getD "" ≠ "" then
      (assoc_find cap_lookup b.id).getD "" else fallback_caption env b)
  else "[이미지]"

/-- The text substituted for one entry (before wrapping):
`caption_by_asset.get(asset_id, fallback)`, twice guarded against blank
values as in the code (`replacement if replacement.strip() else fallback`
then `replacement.strip() if replacement else fallback`). -/
def replacement_core (caption_by_asset : List (String × String))
    (eid : String) (e : MediaEntry) : String :=
  if strip_str ((assoc_find caption_by_asset eid).getD e.fallback) ≠ "" then
    (if (assoc_find caption_by_asset eid).getD e.fallback ≠ "" then
      strip_str ((assoc_find caption_by_asset eid).getD e.fallback)
    else e.fallback)
  else
    (if e.fallback ≠ "" then strip_str e.fallback else e.fallback)

/-- `f"{CAPTION_START_MARKER} {core} {CAPTION_END_MARKER}"`. -/
def wrapped_caption (core : String) : List Char :=
  (CAPTION_START_MARKER ++ " " ++ core ++ " " ++ CAPTION_END_MARKER).toList

/-- The cursor loop building `parts`: for each `(start, stop, repl)`
append the text between the cursor and `start`, then `repl`, and move
the cursor to `stop`; finally append the rest of the text. -/
def splice_entries (raw : List Char) (items : List (Nat × Nat × List Char)) : List Char :=
  let step := items.foldl
    (fun (acc : List Char × Nat) it =>
      (acc.1 ++ slice raw acc.2 it.1 ++ it.2.2, it.2.1))
    ([], 0)
  step.1 ++ raw.drop step.2

/-- Declarative splice: the text outside the spans interleaved with the
replacements, for comparison with the cursor loop. -/
def out_segments (raw : List Char) : Nat → List (Nat × Nat × List Char) → List Char
  | cursor, [] => raw.drop cursor
  | cursor, it :: rest => slice raw cursor it.1 ++ it.2.2 ++ out_segments raw it.2.1 rest

/-- One media-asset record returned to the pipeline (`media_assets`
element): identity, source file (`str(resolved)` or the decoded raw
destination) and final caption. -/
structure MediaAsset where
  id : String
  source_file : String
  caption : String
deriving DecidableEq, Repr

/-- Output of `rewrite_markdown_with_captions`: the written (normalized)
markdown and the media assets. -/
structure RewriteOutput where
  written : List Char
  assets : List MediaAsset
deriving DecidableEq, Repr

/-- The entries of a text. -/
def entries_of (env : RewriteEnv) (raw_text : List Char) : List MediaEntry :=
  (find_image_tags raw_text).map (mk_entry env)

/-- The deduplicated targets of a text. -/
def buckets_of (env : RewriteEnv) (source_hash : String) (raw_text : List Char) :
    List MediaBucket :=
  mk_buckets source_hash (entries_of env raw_text)

/-- The caption-lookup call the rewrite makes (targets are the buckets). -/
def caption_result_of (env : RewriteEnv) (source_hash : String) (raw_text : List Char)
    (cache0 : List (String × String))
    (cache_file_present clear_cache unlink_ok disable_cache : Bool) :
    CaptionLookupResult :=
  generate_caption_lookup env cache0 cache_file_present clear_cache unlink_ok disable_cache
    ((buckets_of env source_hash raw_text).map (fun b => ⟨b.id, b.resolved⟩))

/-- `caption_by_asset`: bucket id ↦ final caption. -/
def caption_by_asset_of (env : RewriteEnv) (cap_lookup : List (String × String))
    (buckets : List MediaBucket) : List (String × String) :=
  buckets.map (fun b => (b.id, bucket_caption env cap_lookup b))

/-- The `(start, stop, replacement)` items of the substitution loop. -/
def items_of (env : RewriteEnv) (source_hash : String) (raw_text : List Char)
    (cap_lookup : List (String × String)) : List (Nat × Nat × List Char) :=
  let entries := entries_of env raw_text
  let caption_by := caption_by_asset_of env cap_lookup (mk_buckets source_hash entries)
  entries.map (fun e =>
    (e.span_start, e.span_stop,
      wrapped_caption (replacement_core caption_by (asset_id_of source_hash entries e) e)))

/-- `rewrite_markdown_with_captions`: find tags (empty: write the
normalized text unchanged), build entries and deduplicated targets,
obtain captions, substitute each span, normalize, and return the media
assets. -/
def rewrite_markdown_with_captions (env : RewriteEnv) (raw_text : List Char)
    (source_hash : String) (cache0 : List (String × String))
    (cache_file_present clear_cache unlink_ok disable_cache : Bool) : RewriteOutput :=
  if (find_image_tags raw_text).isEmpty then
    ⟨normalize_markdown raw_text, []⟩
  else
    let buckets := buckets_of env source_hash raw_text
    let capRes := caption_result_of env source_hash raw_text cache0
      cache_file_present clear_cache unlink_ok disable_cache
    let processed := splice_entries raw_text
      (items_of env source_hash raw_text capRes.captions)
    { written := normalize_markdown processed,
      assets := buckets.map (fun b =>
        { id := b.id,
          -- str(Path(unquote(raw))): the Path constructor's separator
          -- normalization is elided.
          source_file := match b.resolved with
            | some r => r.path_str
            | none => env.unquote b.raw_path,
          caption := bucket_caption env capRes.captions b }) }

/-! ## The staleness chain and per-source regeneration
(`converter_runner.py`)

Modification times are naturals; a missing artifact is `none`.
`shutil.copy2` preserves the source's modification time. -/

/-- Modification times of one source's artifact chain before processing:
the upload itself, its copy under `originals/`, the converted PDF and the
extracted markdown. -/
structure ArtifactState where
  source_mtime : Nat
  copy_mtime : Option Nat
  pdf_mtime : Option Nat
  md_mtime : Option Nat
deriving DecidableEq, Repr

/-- `_should_skip_reprocessing(copied, pdf_path, markdown_path,
existing_chunks)`.  `copied`/`pdf`/`md` are the artifact modification
times (`none` = missing / `FileNotFoundError`), `existing_chunks` the
recorded chunk files' modification times (`none` = missing file). -/
def should_skip_reprocessing (copied pdf md : Option Nat)
    (existing_chunks : List (Option Nat)) : Bool :=
  if existing_chunks.isEmpty then false
  else
    match copied with
    | none => false
    | some source_mtime =>
      match pdf with
      | none => false
      | some pdf_mtime =>
        if pdf_mtime < source_mtime then false
        else
          match md with
          | none => false
          | some md_mtime =>
            if md_mtime < pdf_mtime then false
            else
              existing_chunks.all (fun c =>
                match c with
                | none => false
                | some chunk_mtime => ¬ chunk_mtime < md_mtime)

/-- `_artifacts_up_to_date(source, pdf_path, markdown_path)` (the
chunking-disabled skip check). -/
def artifacts_up_to_date (source pdf md : Option Nat) : Bool :=
  match source with
  | none => false
  | some source_mtime =>
    match pdf with
    | none => false
    | some pdf_mtime =>
      if pdf_mtime < source_mtime then false
      else
        match md with
        | none => false
        | some md_mtime => md_mtime ≥ pdf_mtime

/-- What `_prepare_source_file` did to each artifact of one source
(success path of the external converter and extractor): final
modification times and whether each stage was rewritten. -/
structure PrepResult where
  copy_m : Nat
  pdf_m : Nat
  md_m : Nat
  copy_written : Bool
  pdf_written : Bool
  md_written : Bool
deriving DecidableEq, Repr

/-- `_copy_original`: copy (preserving the modification time) iff the
copy is missing or strictly older than the source. -/
def copy_original (source_mtime : Nat) (copy_mtime : Option Nat) : Nat × Bool :=
  match copy_mtime with
  | none => (source_mtime, true)
  | some c => if source_mtime > c then (source_mtime, true) else (c, false)

/-- `_convert_to_pdf`'s artifact effect, given the copied file's
modification time.  A PDF source gets a freshness-gated `copy2`; for any
other source an existing converted PDF is returned as is (no timestamp
check) and a missing one is produced by the converter at time `now`
(success path; the retry loop is modelled separately). -/
def convert_to_pdf_effect (is_pdf : Bool) (copy_m : Nat) (pdf_mtime : Option Nat)
    (now : Nat) : Nat × Bool :=
  if is_pdf then
    match pdf_mtime with
    | none => (copy_m, true)
    | some p => if copy_m > p then (copy_m, true) else (p, false)
  else
    match pdf_mtime with
    | some p => (p, false)
    | none => (now, true)

/-- `_render_markdown_and_assets` always re-extracts and rewrites the
markdown artifact. -/
def render_markdown_effect (now : Nat) : Nat × Bool := (now, true)

/-- `_prepare_source_file` on the artifact chain (success path):
conditional copy, conditional conversion, unconditional markdown
extraction and rewrite. -/
def prepare_source_file (is_pdf : Bool) (s : ArtifactState) (now : Nat) : PrepResult :=
  let copyR := copy_original s.source_mtime s.copy_mtime
  let pdfR := convert_to_pdf_effect is_pdf copyR.1 s.pdf_mtime now
  let mdR := render_markdown_effect (now + 1)
  { copy_m := copyR.1, pdf_m := pdfR.1, md_m := mdR.1,
    copy_written := copyR.2, pdf_written := pdfR.2, md_written := mdR.2 }

/-! ## The conversion retry loop (`_convert_to_pdf`) -/

/-- `extra_options.get("max_conversion_attempts")` as the code coerces
it: absent, an int-coercible value, or a value on which `int()` raises. -/
inductive AttemptsOption
  | absent
  | value (n : Int)
  | invalid
deriving DecidableEq, Repr

def DEFAULT_CONVERSION_ATTEMPTS : Nat := 3

def RETRY_ELIGIBLE_EXTENSIONS : List String :=
  [".hwp", ".hwpx", ".doc", ".docx", ".ppt", ".pptx", ".xls", ".xlsx",
   ".jpg", ".jpeg", ".png"]

/-- `attempts = max(1, int(opt) if opt is not None else DEFAULT)`, with
invalid values falling back to the default (with a warning). -/
def resolve_attempts (opt : AttemptsOption) : Nat :=
  let a : Int :=
    match opt with
    | .absent => DEFAULT_CONVERSION_ATTEMPTS
    | .invalid => DEFAULT_CONVERSION_ATTEMPTS
    | .value n => n
  (max 1 a).toNat

/-- The attempts actually granted: extensions outside the retry-eligible
set are reduced to a single attempt. -/
def effective_attempts (ext : String) (opt : AttemptsOption) : Nat :=
  if ¬ RETRY_ELIGIBLE_EXTENSIONS.contains ext ∧ resolve_attempts opt > 1 then 1
  else resolve_attempts opt

/-- Outcome of one converter attempt: `payload` is the produced path on
success or the error message on failure; `residue` tells whether a
partial output file exists right after a failed attempt. -/
structure ConvAttemptResult where
  success : Bool
  payload : String
  residue : Bool
deriving DecidableEq, Repr

/-- Trace of the retry loop: number of converter calls, final outcome,
and for each failed attempt the pair (output existed before the cleanup,
output exists after the cleanup). -/
structure ConvTrace where
  calls : Nat
  result : Except String Unit
  cleanup : List (Bool × Bool)
deriving Repr

/-- The terminal message of `_convert_to_pdf` after exhausting all
attempts. -/
def conversion_failure_message (src : String) (attempts : Nat)
    (last_error : Option String) : String :=
  "Failed to convert " ++ src ++ " to PDF after " ++ toString attempts ++ " " ++
    (if attempts = 1 then "attempt" else "attempts") ++ ": " ++
    last_error.getD "unknown error"

/-- The retry loop of `_convert_to_pdf`: attempt `k`, `remaining`
attempts to go.  A failed attempt records its error, and any partial
output is deleted before the next attempt. -/
def conversion_loop (conv : Nat → ConvAttemptResult) (src : String) (attempts : Nat) :
    Nat → Nat → Option String → List (Bool × Bool) → ConvTrace
  | k, 0, last_error, cleanup =>
    { calls := k - 1,
      result := .error (conversion_failure_message src attempts last_error),
      cleanup := cleanup }
  | k, remaining + 1, _, cleanup =>
    let r := conv k
    if r.success then { calls := k, result := .ok (), cleanup := cleanup }
    else
      conversion_loop conv src attempts (k + 1) remaining (some r.payload)
        (cleanup ++ [(r.residue, false)])

/-- `_convert_to_pdf` for a non-PDF source (the PDF pass-through branch
is `convert_to_pdf_effect`): return immediately when the converted PDF
already exists, fail when no converter is available, otherwise run the
bounded retry loop. -/
def convert_to_pdf_run (ext : String) (pdf_exists : Bool) (converter_available : Bool)
    (opt : AttemptsOption) (conv : Nat → ConvAttemptResult) (src : String) : ConvTrace :=
  if pdf_exists then { calls := 0, result := .ok (), cleanup := [] }
  else if ¬ converter_available then
    { calls := 0,
      result := .error "FileConverter not available to convert non-PDF source",
      cleanup := [] }
  else
    conversion_loop conv src (effective_attempts ext opt) 1 (effective_attempts ext opt)
      none []

/-! ## The pipeline orchestration (`run_conversion_pipeline`) -/

/-- One `(chunk_suffix, chunk_text)` pair from `chunk_markdown`. -/
structure ChunkItem where
  suffix : String
  text : String
deriving DecidableEq, Repr

/-- One upload as the orchestration loop sees it: its printable name, the
skip decision of the staleness oracle for it, the chunk records recovered
for it when skipped (`(chunk_id, file exists)`), the preparation outcome
and the chunker outcome. -/
structure DocSim where
  name : String
  md_name : String
  skip : Bool
  skip_chunks : List (String × Bool)
  prep : Except String Unit
  chunker : Except String (List ChunkItem)
deriving Repr

/-- `_chunk_prepared_source`: each chunk gets id `f"chnk_{suffix}"`; an
empty chunker result is a terminal error for the document. -/
def chunk_prepared_source (d : DocSim) : Except String (List String) :=
  match d.chunker with
  | .error e => .error e
  | .ok items =>
    let ids := items.map (fun it => "chnk_" ++ it.suffix)
    if ids.isEmpty then
      .error ("Chunking produced no output for " ++ d.md_name)
    else .ok ids

/-- The collected preparation failure messages
(`f"Failed to process {src}: {exc}"`), in source order. -/
def prep_errors (docs : List DocSim) : List String :=
  (docs.filter (fun d => ¬ d.skip)).filterMap (fun d =>
    match d.prep with
    | .error e => some ("Failed to process " ++ d.name ++ ": " ++ e)
    | .ok _ => none)

/-- The prepared items handed to the chunking fan-out (only when chunking
is enabled; skipped or failed sources contribute nothing). -/
def prepared_docs (enable_chunking : Bool) (docs : List DocSim) : List DocSim :=
  if enable_chunking then
    docs.filter (fun d =>
      !d.skip && (match d.prep with | .ok _ => true | .error _ => false))
  else []

/-- The collected chunking failure messages
(`f"Failed to chunk {markdown_path}: {exc}"`), in unit order. -/
def chunk_errors (enable_chunking : Bool) (docs : List DocSim) : List String :=
  (prepared_docs enable_chunking docs).filterMap (fun d =>
    match chunk_prepared_source d with
    | .error e => some ("Failed to chunk " ++ d.md_name ++ ": " ++ e)
    | .ok _ => none)

/-- First-wins deduplication against a seen set (the `seen_chunk_ids`
bookkeeping). -/
def dedup_first : List String → List String → List String
  | [], _ => []
  | x :: xs, seen =>
    if seen.contains x then dedup_first xs seen else x :: dedup_first xs (x :: seen)

/-- The manifest produced by a run. -/
structure ManifestSim where
  chunk_ids : List String
  needs_embedding_refresh : Bool
deriving DecidableEq, Repr

/-- The chunk ids of a successful run: chunks recovered from skipped
sources (existence-checked, first occurrence wins), then freshly produced
chunks, then untouched leftover records whose file still exists and whose
id was not seen. -/
def pipeline_chunk_ids (enable_chunking : Bool) (docs : List DocSim)
    (leftover : List (String × Bool)) : List String :=
  let skipIds := dedup_first
    ((docs.filter (fun d => enable_chunking ∧ d.skip)).flatMap
      (fun d => (d.skip_chunks.filter (·.2)).map (·.1))) []
  let freshIds := (prepared_docs enable_chunking docs).flatMap
    (fun d => (chunk_prepared_source d).toOption.getD [])
  let leftIds := if enable_chunking then
    dedup_first ((leftover.filter (·.2)).map (·.1)) (skipIds ++ freshIds)
  else []
  skipIds ++ freshIds ++ leftIds

/-- `run_conversion_pipeline`: an empty upload list short-circuits to an
empty manifest with the refresh flag off; collected preparation errors
abort the run before chunking with one joined error; collected chunking
errors abort it after the fan-out with one joined error; otherwise the
manifest is assembled and the refresh flag is the chunking switch. -/
def run_conversion_pipeline (enable_chunking : Bool) (docs : List DocSim)
    (leftover : List (String × Bool)) : Except String ManifestSim :=
  if docs.isEmpty then
    .ok { chunk_ids := [], needs_embedding_refresh := false }
  else
    let pe := prep_errors docs
    if ¬ pe.isEmpty then .error (String.intercalate "\n" pe)
    else
      let ce := chunk_errors enable_chunking docs
      if ¬ ce.isEmpty then .error (String.intercalate "\n" ce)
      else
        .ok { chunk_ids := pipeline_chunk_ids enable_chunking docs leftover,
              needs_embedding_refresh := enable_chunking }

/-! ## Lemmas about the staleness chain and the retry loop -/

/-- The claim's freshness chain, written from the spec sentence: every
stage exists and its modification time is not earlier than its upstream
dependency's (PDF ≥ copy, markdown ≥ PDF, every chunk ≥ markdown). -/
def chain_fresh (copied pdf md : Option Nat) (chunks : List (Option Nat)) : Bool :=
  match copied, pdf, md with
  | some s, some p, some m =>
    s ≤ p && p ≤ m &&
      chunks.all (fun c =>
        match c with
        | some cm => m ≤ cm
        | none => false)
  | _, _, _ => false

theorem list_all_congr {α : Type} {l : List α} {f g : α → Bool}
    (h : ∀ a ∈ l, f a = g a) : l.all f = l.all g := by
  induction l with
  | nil => rfl
  | cons a rest ih =>
    simp only [List.all_cons]
    rw [h a (by simp), ih (fun b hb => h b (by simp [hb]))]

theorem should_skip_eq_chain_fresh (copied pdf md : Option Nat)
    (chunks : List (Option Nat)) (hne : chunks ≠ []) :
    should_skip_reprocessing copied pdf md chunks = chain_fresh copied pdf md chunks := by
  cases copied with
  | none => simp [should_skip_reprocessing, chain_fresh, hne]
  | some s =>
    cases pdf with
    | none => simp [should_skip_reprocessing, chain_fresh, hne]
    | some p =>
      cases md with
      | none =>
        by_cases hps : p < s <;>
          simp [should_skip_reprocessing, chain_fresh, hne, hps]
      | some m =>
        by_cases hps : p < s
        · simp [should_skip_reprocessing, chain_fresh, hne, hps]
        · by_cases hmp : m < p
          · simp [should_skip_reprocessing, chain_fresh, hne, hps, hmp]
          · simp [should_skip_reprocessing, chain_fresh, hne, hps, hmp]
            have h1 : decide (s ≤ p) = true := decide_eq_true (by omega)
            have h2 : decide (p ≤ m) = true := decide_eq_true (by omega)
            rw [h1, h2]
            simp only [Bool.true_and]
            exact list_all_congr (fun c _ => by cases c <;> rfl)

theorem conversion_loop_cleanup_cleared (conv : Nat → ConvAttemptResult)
    (src : String) (A : Nat) :
    ∀ (remaining k : Nat) (last : Option String) (cleanup : List (Bool × Bool)),
      (∀ p ∈ cleanup, p.2 = false) →
      ∀ p ∈ (conversion_loop conv src A k remaining last cleanup).cleanup, p.2 = false := by
  intro remaining
  induction remaining with
  | zero => intro k last cleanup h; simpa [conversion_loop] using h
  | succ rem ih =>
    intro k last cleanup h
    simp only [conversion_loop]
    by_cases hs : (conv k).success
    · simpa [hs] using h
    · simp only [hs, if_false, Bool.false_eq_true]
      refine ih (k + 1) (some (conv k).payload) _ ?_
      intro p hp
      rcases List.mem_append.mp hp with hp | hp
      · exact h p hp
      · simp at hp
        rw [hp]

theorem conversion_loop_all_fail (conv : Nat → ConvAttemptResult)
    (src : String) (A : Nat) :
    ∀ (remaining k : Nat) (last : Option String) (cleanup : List (Bool × Bool)),
      1 ≤ remaining →
      (∀ j, k ≤ j → j < k + remaining → (conv j).success = false) →
      (conversion_loop conv src A k remaining last cleanup).calls = k + remaining - 1 ∧
      (conversion_loop conv src A k remaining last cleanup).result =
        .error (conversion_failure_message src A
          (some (conv (k + remaining - 1)).payload)) ∧
      (conversion_loop conv src A k remaining last cleanup).cleanup.length =
        cleanup.length + remaining := by
  intro remaining
  induction remaining with
  | zero => intro k last cleanup h; omega
  | succ rem ih =>
    intro k last cleanup _ hfail
    have hk : (conv k).success = false := hfail k le_rfl (by omega)
    simp only [conversion_loop, hk, if_false, Bool.false_eq_true]
    cases rem with
    | zero =>
      refine ⟨by simp [conversion_loop], by simp [conversion_loop],
        by simp [conversion_loop]⟩
    | succ rem2 =>
      obtain ⟨hc, hr, hl⟩ := ih (k + 1) (some (conv k).payload)
        (cleanup ++ [((conv k).residue, false)])
        (by omega) (fun j h1 h2 => hfail j (by omega) (by omega))
      have he : k + 1 + (rem2 + 1) - 1 = k + (rem2 + 1 + 1) - 1 := by omega
      rw [he] at hc hr
      refine ⟨hc, hr, ?_⟩
      rw [hl]
      simp only [List.length_append, List.length_cons, List.length_nil]
      omega

theorem conversion_loop_success (conv : Nat → ConvAttemptResult)
    (src : String) (A : Nat) :
    ∀ (remaining k : Nat) (last : Option String) (cleanup : List (Bool × Bool)) (m : Nat),
      k ≤ m → m < k + remaining →
      (∀ j, k ≤ j → j < m → (conv j).success = false) →
      (conv m).success = true →
      (conversion_loop conv src A k remaining last cleanup).calls = m ∧
      (conversion_loop conv src A k remaining last cleanup).result = .ok () := by
  intro remaining
  induction remaining with
  | zero => intro k last cleanup m h1 h2; omega
  | succ rem ih =>
    intro k last cleanup m hkm hlt hfail hsucc
    by_cases hk : k = m
    · subst hk
      simp [conversion_loop, hsucc]
    · have hkf : (conv k).success = false := hfail k le_rfl (by omega)
      simp only [conversion_loop, hkf, if_false, Bool.false_eq_true]
      exact ih (k + 1) (some (conv k).payload) _ m (by omega) (by omega)
        (fun j h1 h2 => hfail j (by omega) h2) hsucc

/-! ## Claim theorems: converter and pipeline -/

/-- C1 (counterexample): with the copy, PDF and markdown all fresh and a
single stale chunk file (chunk mtime 4 < markdown mtime 5), the skip
check fails at the chunk link only, so by the claim every link upstream
of the chunks — in particular the markdown — must be "reused and not
rewritten"; but `_prepare_source_file` unconditionally re-extracts and
rewrites the markdown (`md_written = true`). -/
theorem C1_counterexample :
    should_skip_reprocessing (some 5) (some 5) (some 5) [some 4] = false ∧
    (prepare_source_file false ⟨5, some 5, some 5, some 5⟩ 10).copy_written = false ∧
    (prepare_source_file false ⟨5, some 5, some 5, some 5⟩ 10).pdf_written = false ∧
    (prepare_source_file false ⟨5, some 5, some 5, some 5⟩ 10).md_written = true := by
  exact ⟨by decide, by decide, by decide, by decide⟩

/-- C1 (amended): for a source with previously recorded chunks the
pipeline skips reprocessing iff the whole chain is fresh — the copy
exists, the PDF exists and is not older than the copy, the markdown
exists and is not older than the PDF, and every recorded chunk file
exists and is not older than the markdown.  When reprocessing runs, the
copy is rewritten iff missing or older than the source, a PDF source's
converted PDF is rewritten iff missing or older than the copy, a non-PDF
source's existing converted PDF is reused as is (rewritten iff missing,
even when stale), and the markdown is always rewritten. -/
theorem C1_staleness_chain :
    (∀ copied pdf md chunks, chunks ≠ ([] : List (Option Nat)) →
      should_skip_reprocessing copied pdf md chunks =
        chain_fresh copied pdf md chunks) ∧
    (∀ is_pdf st now, (prepare_source_file is_pdf st now).md_written = true) ∧
    (∀ is_pdf st now, (prepare_source_file is_pdf st now).copy_written = true ↔
      (st.copy_mtime = none ∨ ∃ c, st.copy_mtime = some c ∧ c < st.source_mtime)) ∧
    (∀ st now, (prepare_source_file false st now).pdf_written = true ↔
      st.pdf_mtime = none) ∧
    (∀ st now, (prepare_source_file true st now).pdf_written = true ↔
      (st.pdf_mtime = none ∨ ∃ p, st.pdf_mtime = some p ∧
        p < (copy_original st.source_mtime st.copy_mtime).1)) := by
  refine ⟨should_skip_eq_chain_fresh, ?_, ?_, ?_, ?_⟩
  · intro is_pdf st now
    rfl
  · intro is_pdf st now
    cases hc : st.copy_mtime with
    | none => simp [prepare_source_file, copy_original, hc]
    | some c =>
      by_cases h : st.source_mtime > c
      · simp [prepare_source_file, copy_original, hc, h]
      · simp [prepare_source_file, copy_original, hc, h]
  · intro st now
    cases hp : st.pdf_mtime with
    | none => simp [prepare_source_file, convert_to_pdf_effect, hp]
    | some p => simp [prepare_source_file, convert_to_pdf_effect, hp]
  · intro st now
    cases hp : st.pdf_mtime with
    | none => simp [prepare_source_file, convert_to_pdf_effect, hp]
    | some p =>
      by_cases h : (copy_original st.source_mtime st.copy_mtime).1 > p
      · simp [prepare_source_file, convert_to_pdf_effect, hp, h]
      · simp [prepare_source_file, convert_to_pdf_effect, hp, h]

/-- C1 (witness): the amended theorem applied to a fully fresh chain —
the skip check succeeds. -/
theorem C1_witness :
    should_skip_reprocessing (some 3) (some 4) (some 5) [some 6, some 7] = true := by
  rw [C1_staleness_chain.1 (some 3) (some 4) (some 5) [some 6, some 7] (by decide)]
  decide

/-- C2: conversion attempts for a non-PDF source whose converted PDF does
not yet exist.  The ceiling is `max_conversion_attempts` coerced to an
integer (3 when absent or invalid, never below 1); an extension outside
the retry-eligible set always gets exactly one attempt; when every
attempt fails the loop makes exactly the ceiling's number of calls and
raises a message embedding the last failure and the attempt count, and
every failed attempt's partial output is deleted (one cleanup per failed
attempt, each leaving no file); a success at attempt `m` stops after
exactly `m` calls. -/
theorem C2_conversion_retries :
    resolve_attempts .absent = 3 ∧
    resolve_attempts .invalid = 3 ∧
    (∀ n : Int, resolve_attempts (.value n) = (max 1 n).toNat) ∧
    (∀ opt, 1 ≤ resolve_attempts opt) ∧
    (∀ ext opt, ¬ RETRY_ELIGIBLE_EXTENSIONS.contains ext →
      effective_attempts ext opt = 1) ∧
    (∀ ext opt, RETRY_ELIGIBLE_EXTENSIONS.contains ext →
      effective_attempts ext opt = resolve_attempts opt) ∧
    (∀ ext opt conv src,
      (∀ j, 1 ≤ j → j ≤ effective_attempts ext opt → (conv j).success = false) →
      (convert_to_pdf_run ext false true opt conv src).calls =
          effective_attempts ext opt ∧
        (convert_to_pdf_run ext false true opt conv src).result =
          .error (conversion_failure_message src (effective_attempts ext opt)
            (some (conv (effective_attempts ext opt)).payload)) ∧
        (convert_to_pdf_run ext false true opt conv src).cleanup.length =
          effective_attempts ext opt ∧
        (∀ p ∈ (convert_to_pdf_run ext false true opt conv src).cleanup,
          p.2 = false)) ∧
    (∀ ext opt conv src m, 1 ≤ m → m ≤ effective_attempts ext opt →
      (∀ j, 1 ≤ j → j < m → (conv j).success = false) → (conv m).success = true →
      (convert_to_pdf_run ext false true opt conv src).calls = m ∧
        (convert_to_pdf_run ext false true opt conv src).result = .ok ()) := by
  have hmin : ∀ opt, 1 ≤ resolve_attempts opt := by
    intro opt
    cases opt <;> simp [resolve_attempts, DEFAULT_CONVERSION_ATTEMPTS]
  refine ⟨rfl, rfl, fun n => rfl, hmin, ?_, ?_, ?_, ?_⟩
  · intro ext opt hext
    unfold effective_attempts
    have := hmin opt
    by_cases h : resolve_attempts opt > 1
    · rw [if_pos ⟨hext, h⟩]
    · rw [if_neg (by tauto)]
      omega
  · intro ext opt hext
    unfold effective_attempts
    rw [if_neg (fun hcond => absurd hext hcond.1)]
  · intro ext opt conv src hfail
    unfold convert_to_pdf_run
    rw [if_neg (by simp), if_neg (by simp)]
    have hA := hmin
    have hA1 : 1 ≤ effective_attempts ext opt := by
      unfold effective_attempts
      split
      · omega
      · exact hA opt
    have h := conversion_loop_all_fail conv src (effective_attempts ext opt)
      (effective_attempts ext opt) 1 none [] hA1
      (fun j h1 h2 => hfail j h1 (by omega))
    have hidx : 1 + effective_attempts ext opt - 1 = effective_attempts ext opt := by
      omega
    rw [hidx] at h
    refine ⟨h.1, h.2.1, ?_, ?_⟩
    · rw [h.2.2]; simp
    · exact conversion_loop_cleanup_cleared conv src _ _ 1 none [] (by simp)
  · intro ext opt conv src m h1 h2 hfail hsucc
    unfold convert_to_pdf_run
    rw [if_neg (by simp), if_neg (by simp)]
    exact conversion_loop_success conv src _ _ 1 none [] m (by omega) (by omega)
      (fun j hj1 hj2 => hfail j hj1 hj2) hsucc

/-- C2 (witness): `max_conversion_attempts=1` on a retry-eligible
extension — the first failure raises immediately, after exactly one
converter call, with the failure message embedded. -/
theorem C2_witness :
    (convert_to_pdf_run ".docx" false true (.value 1)
      (fun _ => ⟨false, "boom", true⟩) "src.docx").calls = 1 ∧
    (convert_to_pdf_run ".docx" false true (.value 1)
      (fun _ => ⟨false, "boom", true⟩) "src.docx").result =
      .error "Failed to convert src.docx to PDF after 1 attempt: boom" := by
  have h := C2_conversion_retries.2.2.2.2.2.2.1 ".docx" (.value 1)
    (fun _ => ⟨false, "boom", true⟩) "src.docx" (fun j _ _ => rfl)
  refine ⟨?_, ?_⟩
  · rw [h.1]
    decide
  · rw [h.2.1]
    simp only [Except.error.injEq]
    decide

/-- C3: failures are collected, not raised at the failing unit.  A
non-empty collection of preparation failures aborts the run with their
join (before chunking); otherwise a non-empty collection of chunking
failures (a chunker returning zero chunks is one, with its dedicated
message) aborts the run with their join; no manifest is returned in
either case, and any raised error is one of these two joins; an empty
collection returns the manifest. -/
theorem C3_error_aggregation :
    (∀ enable docs leftover, docs ≠ [] → prep_errors docs ≠ [] →
      run_conversion_pipeline enable docs leftover =
        .error (String.intercalate "\n" (prep_errors docs))) ∧
    (∀ enable docs leftover, docs ≠ [] → prep_errors docs = [] →
      chunk_errors enable docs ≠ [] →
      run_conversion_pipeline enable docs leftover =
        .error (String.intercalate "\n" (chunk_errors enable docs))) ∧
    (∀ enable docs leftover, docs ≠ [] → prep_errors docs = [] →
      chunk_errors enable docs = [] →
      run_conversion_pipeline enable docs leftover =
        .ok ⟨pipeline_chunk_ids enable docs leftover, enable⟩) ∧
    (∀ (d : DocSim) docs, d ∈ prepared_docs true docs → d.chunker = .ok [] →
      ("Failed to chunk " ++ d.md_name ++ ": " ++
        ("Chunking produced no output for " ++ d.md_name)) ∈ chunk_errors true docs) ∧
    (∀ enable docs leftover s,
      run_conversion_pipeline enable docs leftover = .error s →
      s = String.intercalate "\n" (prep_errors docs) ∨
      s = String.intercalate "\n" (chunk_errors enable docs)) := by
  refine ⟨?_, ?_, ?_, ?_, ?_⟩
  · intro enable docs leftover hne hpe
    unfold run_conversion_pipeline
    rw [if_neg (by simpa using hne), if_pos (by simpa using hpe)]
  · intro enable docs leftover hne hpe hce
    unfold run_conversion_pipeline
    rw [if_neg (by simpa using hne), if_neg (by simp [hpe]),
      if_pos (by simpa using hce)]
  · intro enable docs leftover hne hpe hce
    unfold run_conversion_pipeline
    rw [if_neg (by simpa using hne), if_neg (by simp [hpe]),
      if_neg (by simp [hce])]
  · intro d docs hmem hch
    unfold chunk_errors
    refine List.mem_filterMap.mpr ⟨d, hmem, ?_⟩
    rw [chunk_prepared_source, hch]
    simp
  · intro enable docs leftover s h
    unfold run_conversion_pipeline at h
    by_cases hd : docs.isEmpty
    · rw [if_pos hd] at h
      exact absurd h (by simp)
    · rw [if_neg hd] at h
      by_cases hpe : prep_errors docs = []
      · rw [if_neg (by simp [hpe])] at h
        by_cases hce : chunk_errors enable docs = []
        · rw [if_neg (by simp [hce])] at h
          exact absurd h (by simp)
        · rw [if_pos (by simpa using hce)] at h
          right
          injection h with h'
          exact h'.symm
      · rw [if_pos (by simpa using hpe)] at h
        left
        injection h with h'
        exact h'.symm

/-- C3 (witness): two failing documents — both messages are joined into
the single raised error; a successful run returns the manifest. -/
theorem C3_witness :
    run_conversion_pipeline true
      [⟨"a", "a.md", false, [], .error "boom", .ok []⟩,
       ⟨"b", "b.md", false, [], .error "crash", .ok []⟩] [] =
      .error "Failed to process a: boom\nFailed to process b: crash" ∧
    run_conversion_pipeline true
      [⟨"a", "a.md", false, [], .ok (), .ok [⟨"h_0000", "txt"⟩]⟩] [] =
      .ok ⟨["chnk_h_0000"], true⟩ := by
  constructor
  · have h := C3_error_aggregation.1 true
      [⟨"a", "a.md", false, [], .error "boom", .ok []⟩,
       ⟨"b", "b.md", false, [], .error "crash", .ok []⟩] []
      (by simp) (by decide)
    rw [h]
    rfl
  · have h := C3_error_aggregation.2.2.1 true
      [⟨"a", "a.md", false, [], .ok (), .ok [⟨"h_0000", "txt"⟩]⟩] []
      (by simp) (by decide) (by decide)
    rw [h]
    rfl

/-- C8: the refresh-needed flag is true whenever chunking is enabled and
the returned manifest has at least one chunk; with no eligible input the
returned manifest is empty and the flag is false. -/
theorem C8_refresh_flag :
    (∀ enable leftover, run_conversion_pipeline enable [] leftover =
      .ok { chunk_ids := [], needs_embedding_refresh := false }) ∧
    (∀ enable docs leftover m,
      run_conversion_pipeline enable docs leftover = .ok m →
      enable = true → m.chunk_ids ≠ [] → m.needs_embedding_refresh = true) := by
  constructor
  · intro enable leftover
    rfl
  · intro enable docs leftover m h henable hchunks
    unfold run_conversion_pipeline at h
    by_cases hd : docs.isEmpty
    · rw [if_pos hd] at h
      injection h with h'
      rw [← h'] at hchunks
      exact absurd rfl hchunks
    · rw [if_neg hd] at h
      by_cases hpe : prep_errors docs = []
      · rw [if_neg (by simp [hpe])] at h
        by_cases hce : chunk_errors enable docs = []
        · rw [if_neg (by simp [hce])] at h
          injection h with h'
          rw [← h']
          exact henable
        · rw [if_pos (by simpa using hce)] at h
          exact absurd h (by simp)
      · rw [if_pos (by simpa using hpe)] at h
        exact absurd h (by simp)

/-! ## Association-list and bucket lemmas -/

theorem assoc_find_insert_self {α : Type} (d : List (String × α)) (k : String) (v : α) :
    assoc_find (assoc_insert d k v) k = some v := by
  induction d with
  | nil => simp [assoc_insert, assoc_find]
  | cons p rest ih =>
    by_cases h : p.1 = k
    · simp [assoc_insert, assoc_find, h]
    · simp only [assoc_insert, if_neg h]
      simp only [assoc_find, List.find?_cons, h]
      simpa [assoc_find, h] using ih

theorem assoc_find_insert_other {α : Type} (d : List (String × α)) (k k' : String)
    (v : α) (h : k' ≠ k) :
    assoc_find (assoc_insert d k v) k' = assoc_find d k' := by
  have hkk : ¬ k = k' := fun hh => h hh.symm
  induction d with
  | nil => simp [assoc_insert, assoc_find, hkk]
  | cons p rest ih =>
    by_cases hp : p.1 = k
    · have hpk : ¬ p.1 = k' := by rw [hp]; exact hkk
      simp [assoc_insert, assoc_find, hp, hpk, hkk]
    · by_cases hpk : p.1 = k'
      · simp only [assoc_insert, if_neg hp]
        simp [assoc_find, List.find?_cons, hpk]
      · simp only [assoc_insert, if_neg hp]
        simp only [assoc_find, List.find?_cons, hpk]
        simpa [assoc_find, hpk] using ih

theorem assoc_find_map_eq_some {α β : Type} (l : List α) (key : α → String)
    (f : α → β) (k : String) (v : β)
    (h : assoc_find (l.map (fun a => (key a, f a))) k = some v) :
    ∃ a ∈ l, key a = k ∧ v = f a := by
  induction l with
  | nil => simp [assoc_find] at h
  | cons a rest ih =>
    by_cases hk : key a = k
    · refine ⟨a, by simp, hk, ?_⟩
      simp [assoc_find, hk] at h
      exact h.symm
    · simp only [List.map_cons, assoc_find, List.find?_cons, hk] at h
      obtain ⟨a', ha', hk', hv⟩ := ih (by simpa [assoc_find, hk] using h)
      exact ⟨a', by simp [ha'], hk', hv⟩

theorem assoc_find_map_self {α β : Type} (l : List α) (key : α → String)
    (f : α → β) (a : α) (ha : a ∈ l) :
    ∃ v, assoc_find (l.map (fun a => (key a, f a))) (key a) = some v := by
  induction l with
  | nil => simp at ha
  | cons b rest ih =>
    by_cases hk : key b = key a
    · exact ⟨f b, by simp [assoc_find, hk]⟩
    · rcases List.mem_cons.mp ha with rfl | ha'
      · exact absurd rfl hk
      · obtain ⟨v, hv⟩ := ih ha'
        refine ⟨v, ?_⟩
        simpa [assoc_find, List.find?_cons, hk] using hv

/-- Invariant of the target-deduplication fold of
`rewrite_markdown_with_captions`. -/
structure BucketInv (source_hash : String) (processed : List MediaEntry)
    (st : List MediaBucket) : Prop where
  nodup : (st.map bucket_key).Nodup
  alts : ∀ b ∈ st,
    b.alts = (processed.filter (fun e => entry_key e = bucket_key b)).map (·.alt)
  covers : ∀ e ∈ processed, ∃ b ∈ st, bucket_key b = entry_key e
  ids : ∀ (i : Nat) (h : i < st.length), st[i].id = source_hash ++ "_img_" ++ pad3 i

theorem bucket_key_update (b : MediaBucket) (alts' : List String) :
    bucket_key { b with alts := alts' } = bucket_key b := rfl

theorem bucket_inv_step (source_hash : String) (processed : List MediaEntry)
    (st : List MediaBucket) (e : MediaEntry)
    (inv : BucketInv source_hash processed st) :
    BucketInv source_hash (processed ++ [e]) (add_entry_to_buckets source_hash st e) := by
  unfold add_entry_to_buckets
  by_cases hmem : st.any (fun b => bucket_key b = entry_key e)
  · rw [if_pos hmem]
    have hkeys : (st.map (fun b =>
        if bucket_key b = entry_key e then { b with alts := b.alts ++ [e.alt] } else b)).map
          bucket_key = st.map bucket_key := by
      rw [List.map_map]
      refine List.map_congr_left (fun b _ => ?_)
      by_cases h : bucket_key b = entry_key e <;> simp [h, bucket_key_update]
    refine ⟨?_, ?_, ?_, ?_⟩
    · rw [hkeys]; exact inv.nodup
    · intro b' hb'
      obtain ⟨b, hb, heq⟩ := List.mem_map.mp hb'
      by_cases h : bucket_key b = entry_key e
      · rw [if_pos h] at heq
        subst heq
        rw [bucket_key_update, List.filter_append, List.map_append]
        have he : ([e] : List MediaEntry).filter
            (fun e' => entry_key e' = bucket_key b) = [e] := by
          rw [List.filter_cons, if_pos (by simpa using h.symm)]
          rfl
        rw [he, ← inv.alts b hb]
        rfl
      · rw [if_neg h] at heq
        subst heq
        rw [List.filter_append, List.map_append]
        have he : ([e] : List MediaEntry).filter
            (fun e' => entry_key e' = bucket_key b) = [] := by
          rw [List.filter_cons, if_neg (by
            simp only [decide_eq_true_eq]
            exact fun hc => h hc.symm)]
          rfl
        rw [he, ← inv.alts b hb]
        simp
    · intro e' he'
      rcases List.mem_append.mp he' with he' | he'
      · obtain ⟨b, hb, hk⟩ := inv.covers e' he'
        by_cases h : bucket_key b = entry_key e
        · exact ⟨{ b with alts := b.alts ++ [e.alt] },
            List.mem_map.mpr ⟨b, hb, by rw [if_pos h]⟩, by rw [bucket_key_update, hk]⟩
        · exact ⟨b, List.mem_map.mpr ⟨b, hb, by rw [if_neg h]⟩, hk⟩
      · simp only [List.mem_singleton] at he'
        subst he'
        obtain ⟨b, hb, hk⟩ := List.any_eq_true.mp hmem
        have hk' : bucket_key b = entry_key e' := by simpa using hk
        exact ⟨{ b with alts := b.alts ++ [e'.alt] },
          List.mem_map.mpr ⟨b, hb, by rw [if_pos hk']⟩, by rw [bucket_key_update, hk']⟩
    · intro i h
      rw [List.getElem_map]
      have hlen : i < st.length := by simpa using h
      have := inv.ids i hlen
      by_cases hk : bucket_key st[i] = entry_key e <;> simp [hk, this]
  · rw [if_neg hmem]
    have hnone : ∀ b ∈ st, ¬ bucket_key b = entry_key e := by
      intro b hb hk
      exact hmem (List.any_eq_true.mpr ⟨b, hb, by simpa using hk⟩)
    have hnewkey : bucket_key
        { id := source_hash ++ "_img_" ++ pad3 st.length,
          resolved := e.resolved, raw_path := e.raw_path, alts := [e.alt] } =
        entry_key e := rfl
    refine ⟨?_, ?_, ?_, ?_⟩
    · rw [List.map_append, List.nodup_append]
      refine ⟨inv.nodup, by simp, ?_⟩
      intro k hk
      obtain ⟨b, hb, rfl⟩ := List.mem_map.mp hk
      simp only [List.map_cons, List.map_nil, List.mem_singleton, hnewkey]
      intro hk'
      exact hnone b hb hk'
    · intro b' hb'
      rcases List.mem_append.mp hb' with hb' | hb'
      · rw [List.filter_append, List.map_append]
        have he : ([e] : List MediaEntry).filter
            (fun e' => entry_key e' = bucket_key b') = [] := by
          rw [List.filter_cons, if_neg (by
            simp only [decide_eq_true_eq]
            exact fun hc => hnone b' hb' hc.symm)]
          rfl
        rw [he, ← inv.alts b' hb']
        simp
      · simp only [List.mem_singleton] at hb'
        subst hb'
        rw [List.filter_append, hnewkey]
        have hleft : processed.filter (fun e' => entry_key e' = entry_key e) = [] := by
          rw [List.filter_eq_nil_iff]
          intro e' he' hk
          obtain ⟨b, hb, hbk⟩ := inv.covers e' he'
          have hk' : entry_key e' = entry_key e := by simpa using hk
          refine hnone b hb ?_
          rw [hbk, hk']
        rw [hleft]
        have he : ([e] : List MediaEntry).filter
            (fun e' => entry_key e' = entry_key e) = [e] := by
          rw [List.filter_cons, if_pos (by simp)]
          rfl
        rw [he]
        rfl
    · intro e' he'
      rcases List.mem_append.mp he' with he' | he'
      · obtain ⟨b, hb, hk⟩ := inv.covers e' he'
        exact ⟨b, by simp [hb], hk⟩
      · simp only [List.mem_singleton] at he'
        subst he'
        exact ⟨_, by simp, hnewkey⟩
    · intro i h
      simp only [List.length_append, List.length_cons, List.length_nil] at h
      by_cases hi : i < st.length
      · rw [List.getElem_append_left hi]
        exact inv.ids i hi
      · have hieq : i = st.length := by omega
        subst hieq
        rw [List.getElem_append_right (by omega)]
        simp

theorem mk_buckets_inv (source_hash : String) (entries : List MediaEntry) :
    BucketInv source_hash entries (mk_buckets source_hash entries) := by
  suffices h : ∀ (es processed : List MediaEntry) (st : List MediaBucket),
      BucketInv source_hash processed st →
      BucketInv source_hash (processed ++ es)
        (es.foldl (add_entry_to_buckets source_hash) st) by
    simpa using h entries [] []
      ⟨by simp, by simp, by simp, fun i h => by simp at h⟩
  intro es
  induction es with
  | nil =>
    intro processed st inv
    simpa using inv
  | cons e rest ih =>
    intro processed st inv
    have := ih (processed ++ [e]) _ (bucket_inv_step source_hash processed st e inv)
    simpa using this

theorem asset_id_of_eq_of_key (source_hash : String) (entries : List MediaEntry)
    (e1 e2 : MediaEntry) (h : entry_key e1 = entry_key e2) :
    asset_id_of source_hash entries e1 = asset_id_of source_hash entries e2 := by
  unfold asset_id_of
  rw [h]

theorem asset_id_of_mem (source_hash : String) (entries : List MediaEntry)
    (e : MediaEntry) (he : e ∈ entries) :
    ∃ b ∈ mk_buckets source_hash entries,
      bucket_key b = entry_key e ∧ asset_id_of source_hash entries e = b.id := by
  obtain ⟨b0, hb0, hk0⟩ := (mk_buckets_inv source_hash entries).covers e he
  cases hf : (mk_buckets source_hash entries).find?
      (fun b => bucket_key b = entry_key e) with
  | none =>
    rw [List.find?_eq_none] at hf
    exact absurd (by simpa using hk0) (by simpa using hf b0 hb0)
  | some b =>
    refine ⟨b, List.mem_of_find?_eq_some hf, by simpa using List.find?_some hf, ?_⟩
    unfold asset_id_of
    rw [hf]

/-! ## Caption lemmas -/

theorem bucket_caption_nonblank (env : RewriteEnv) (cl : List (String × String))
    (b : MediaBucket) : strip_str (bucket_caption env cl b) ≠ "" := by
  unfold bucket_caption
  by_cases h : strip_str (if (assoc_find cl b.id).getD "" ≠ "" then
      (assoc_find cl b.id).getD "" else fallback_caption env b) ≠ ""
  · rw [if_pos h]
    exact h
  · rw [if_neg h]
    decide

theorem caption_by_find_self (env : RewriteEnv) (cl : List (String × String))
    (buckets : List MediaBucket) (b : MediaBucket) (hb : b ∈ buckets) :
    ∃ b' ∈ buckets, assoc_find (caption_by_asset_of env cl buckets) b.id =
      some (bucket_caption env cl b') := by
  obtain ⟨v, hv⟩ := assoc_find_map_self buckets (fun b => b.id)
    (bucket_caption env cl) b hb
  have hv' : assoc_find (caption_by_asset_of env cl buckets) b.id = some v := hv
  obtain ⟨b', hb', _, hveq⟩ := assoc_find_map_eq_some buckets (fun b => b.id)
    (bucket_caption env cl) b.id v hv
  subst hveq
  exact ⟨b', hb', hv'⟩

theorem caption_by_find_mem (env : RewriteEnv) (cl : List (String × String))
    (buckets : List MediaBucket) (k : String) (v : String)
    (h : assoc_find (caption_by_asset_of env cl buckets) k = some v) :
    ∃ b ∈ buckets, b.id = k ∧ v = bucket_caption env cl b :=
  assoc_find_map_eq_some buckets (fun b => b.id) (bucket_caption env cl) k v h

theorem dropWhile_idem (p : Char → Bool) (l : List Char) :
    (l.dropWhile p).dropWhile p = l.dropWhile p := by
  induction l with
  | nil => rfl
  | cons a t ih =>
    by_cases h : p a
    · rw [List.dropWhile_cons_of_pos h, ih]
    · rw [List.dropWhile_cons_of_neg h, List.dropWhile_cons_of_neg h]

theorem py_rstrip_idem (l : List Char) : py_rstrip (py_rstrip l) = py_rstrip l := by
  unfold py_rstrip
  rw [List.reverse_reverse, dropWhile_idem]

/-- `rstrip` of a non-space-headed list keeps the head (or empties it). -/
theorem py_rstrip_cons (a : Char) (t : List Char) :
    py_rstrip (a :: t) = [] ∨ ∃ t', py_rstrip (a :: t) = a :: t' := by
  unfold py_rstrip
  rw [show (a :: t).reverse = t.reverse ++ [a] by simp]
  rw [List.dropWhile_append]
  by_cases h : (t.reverse.dropWhile py_isspace).isEmpty
  · rw [if_pos h]
    by_cases ha : py_isspace a
    · left; simp [List.dropWhile_cons, ha]
    · right; exact ⟨[], by simp [List.dropWhile_cons, ha]⟩
  · rw [if_neg h]
    right
    exact ⟨(t.reverse.dropWhile py_isspace).reverse, by simp⟩

theorem lstrip_rstrip_lstrip (l : List Char) :
    py_lstrip (py_rstrip (py_lstrip l)) = py_rstrip (py_lstrip l) := by
  induction l with
  | nil => rfl
  | cons a t ih =>
    by_cases h : py_isspace a
    · rw [show py_lstrip (a :: t) = py_lstrip t by
        simp [py_lstrip, List.dropWhile_cons, h]]
      exact ih
    · rw [show py_lstrip (a :: t) = a :: t by
        simp [py_lstrip, List.dropWhile_cons, h]]
      rcases py_rstrip_cons a t with hr | ⟨t', hr⟩
      · rw [hr]; rfl
      · rw [hr]
        simp [py_lstrip, List.dropWhile_cons, h]

theorem py_strip_idem (l : List Char) : py_strip (py_strip l) = py_strip l := by
  unfold py_strip
  rw [lstrip_rstrip_lstrip, py_rstrip_idem]

/-- Python `str.strip()` is idempotent. -/
theorem strip_str_idem (s : String) : strip_str (strip_str s) = strip_str s :=
  congrArg String.mk (py_strip_idem s.toList)

theorem strip_str_ne_empty_of {s : String} (h : strip_str s ≠ "") : s ≠ "" := by
  intro hs
  rw [hs] at h
  exact h rfl

/-- The substituted core of an entry is the stripped caption of one of
the document's buckets — hence non-empty and non-whitespace. -/
theorem replacement_core_spec (env : RewriteEnv) (cl : List (String × String))
    (source_hash : String) (entries : List MediaEntry) (e : MediaEntry)
    (he : e ∈ entries) :
    ∃ b' ∈ mk_buckets source_hash entries,
      replacement_core (caption_by_asset_of env cl (mk_buckets source_hash entries))
        (asset_id_of source_hash entries e) e =
        strip_str (bucket_caption env cl b') := by
  obtain ⟨b, hb, hkey, hid⟩ := asset_id_of_mem source_hash entries e he
  obtain ⟨b', hb', hfind⟩ := caption_by_find_self env cl _ b hb
  refine ⟨b', hb', ?_⟩
  rw [hid]
  unfold replacement_core
  rw [hfind]
  simp only [Option.getD_some]
  have hnb := bucket_caption_nonblank env cl b'
  rw [if_pos hnb, if_pos (strip_str_ne_empty_of hnb)]

/-! ## Cache-pass and vision-merge lemmas -/

theorem cache_pass_step_to_request (env : RewriteEnv) (cache : List (String × String))
    (st : CachePassState) (t : CaptionTarget) :
    (cache_pass_step env cache st t).to_request =
      st.to_request ++ (request_key_of env cache t).toList := by
  cases htr : t.resolved with
  | none => simp [cache_pass_step, request_key_of, htr]
  | some r =>
    cases hbl : r.blob with
    | none => simp [cache_pass_step, request_key_of, htr, hbl]
    | some blob =>
      cases hfind : assoc_find cache (cache_key_of env blob) with
      | none => simp [cache_pass_step, request_key_of, htr, hbl, hfind]
      | some cached =>
        by_cases hc : strip_str cached ≠ "" <;>
          simp [cache_pass_step, request_key_of, htr, hbl, hfind, hc]

theorem cache_pass_to_request (env : RewriteEnv) (cache : List (String × String)) :
    ∀ (ts : List CaptionTarget) (st : CachePassState),
      (ts.foldl (cache_pass_step env cache) st).to_request =
        st.to_request ++ ts.filterMap (request_key_of env cache) := by
  intro ts
  induction ts with
  | nil => intro st; simp
  | cons t rest ih =>
    intro st
    rw [List.foldl_cons, ih, cache_pass_step_to_request]
    rw [List.filterMap_cons]
    cases request_key_of env cache t <;> simp

theorem filterMap_nodup_of_key {α : Type} (l : List α) (keyf : α → String)
    (f : α → Option String)
    (hf : ∀ a k, f a = some k → k = keyf a)
    (hnd : (l.map keyf).Nodup) : (l.filterMap f).Nodup := by
  induction l with
  | nil => simp
  | cons a rest ih =>
    rw [List.map_cons, List.nodup_cons] at hnd
    rw [List.filterMap_cons]
    cases hfa : f a with
    | none => exact ih hnd.2
    | some k =>
      rw [List.nodup_cons]
      refine ⟨?_, ih hnd.2⟩
      intro hk
      obtain ⟨b, hbmem, hfb⟩ := List.mem_filterMap.mp hk
      have hka : k = keyf a := hf a k hfa
      have hkb : k = keyf b := hf b k hfb
      refine hnd.1 ?_
      rw [hka.symm.trans hkb]
      exact List.mem_map_of_mem keyf hbmem

/-- A target of a resolved bucket can only request that bucket's key. -/
theorem request_key_of_bucket (env : RewriteEnv) (cache : List (String × String))
    (b : MediaBucket) (k : String)
    (h : request_key_of env cache ⟨b.id, b.resolved⟩ = some k) :
    k = bucket_key b := by
  cases htr : b.resolved with
  | none =>
    rw [htr] at h
    simp [request_key_of] at h
  | some r =>
    rw [htr] at h
    have hbk : bucket_key b = r.key := by
      simp [bucket_key, make_target_key, htr]
    rw [hbk]
    cases hbl : r.blob with
    | none => simp [request_key_of, hbl] at h
    | some blob =>
      cases hfind : assoc_find cache (cache_key_of env blob) with
      | none =>
        simp [request_key_of, hbl, hfind] at h
        exact h.symm
      | some cached =>
        by_cases hc : strip_str cached ≠ ""
        · simp [request_key_of, hbl, hfind, hc] at h
        · simp [request_key_of, hbl, hfind, hc] at h
          exact h.symm

/-- A concrete rewrite environment for witnesses: only `img.png`
resolves, percent-decoding is the identity, no vision credential is
available, the model key is `"M"` and every blob digests to `"D"`. -/
def test_env : RewriteEnv :=
  { resolve := fun d =>
      if d = "img.png".toList then
        some { key := "/m/img.png", stem := "img", path_str := "/m/img.png",
               file_exists := true, blob := some [1, 2, 3] }
      else none,
    unquote := id,
    vision_ok := false,
    vision := fun _ => [],
    model_key := "M",
    digest := fun _ => "D" }

/-- A vision-enabled environment for witnesses: the service answers
`"a cat"` for every requested file. -/
def vision_test_env : RewriteEnv :=
  { resolve := fun _ => none,
    unquote := id,
    vision_ok := true,
    vision := fun reqs => reqs.map (fun k => (k, "a cat")),
    model_key := "M",
    digest := fun _ => "D" }

/-- A concrete existing image file for witnesses. -/
def witness_file : FileRef :=
  { key := "/m/img.png", stem := "img", path_str := "/m/img.png",
    file_exists := true, blob := some [1, 2, 3] }

/-- A concrete caption target over `witness_file`. -/
def witness_target : CaptionTarget :=
  { id := "id0", resolved := some witness_file }

/-- The helper of the double blank-guard of the substitution loop: a
non-blank caption found under the asset id is substituted stripped. -/
theorem replacement_core_of_find (cap_by : List (String × String)) (eid : String)
    (e : MediaEntry) (v : String) (hfind : assoc_find cap_by eid = some v)
    (hnb : strip_str v ≠ "") : replacement_core cap_by eid e = strip_str v := by
  unfold replacement_core
  rw [hfind]
  simp only [Option.getD_some]
  rw [if_pos hnb, if_pos (strip_str_ne_empty_of hnb)]

/-- The per-cache requested list of the cached caption lookup never
repeats a file: it is a sublist of the deduplicated buckets' resolved
keys. -/
theorem gclc_requested_nodup (env : RewriteEnv) (cache0 : List (String × String))
    (cfp cc uo : Bool) (buckets : List MediaBucket)
    (hnd : (buckets.map bucket_key).Nodup) :
    (generate_caption_lookup_cached env cache0 cfp cc uo
      (buckets.map (fun b => ⟨b.id, b.resolved⟩))).requested.Nodup := by
  have hto : ∀ cache : List (String × String),
      ((caption_candidates (buckets.map (fun b => (⟨b.id, b.resolved⟩ : CaptionTarget)))).foldl
        (cache_pass_step env cache) ⟨[], [], []⟩).to_request.Nodup := by
    intro cache
    rw [cache_pass_to_request]
    simp only [List.nil_append]
    have hbig : (buckets.filterMap
        (fun b => request_key_of env cache ⟨b.id, b.resolved⟩)).Nodup :=
      filterMap_nodup_of_key buckets bucket_key _
        (fun b k h => request_key_of_bucket env cache b k h) hnd
    have hsub : List.Sublist
        ((caption_candidates (buckets.map
          (fun b => (⟨b.id, b.resolved⟩ : CaptionTarget)))).filterMap
          (request_key_of env cache))
        ((buckets.map (fun b => (⟨b.id, b.resolved⟩ : CaptionTarget))).filterMap
          (request_key_of env cache)) :=
      (List.filter_sublist _).filterMap _
    rw [List.filterMap_map] at hsub
    exact hbig.sublist hsub
  simp only [generate_caption_lookup_cached]
  split_ifs <;>
    first
      | exact hto []
      | exact hto cache0
      | simp

/-! ## Vision-merge lemmas (cached mode, `_generate_caption_lookup`) -/

theorem merge_step_changed_mono (req_lookup : List (String × (String × String)))
    (st : VisionMergeState) (p : String × String) (h : st.changed = true) :
    (merge_vision_step req_lookup st p).changed = true := by
  cases hf : assoc_find req_lookup p.1 with
  | none => simp only [merge_vision_step, hf]; exact h
  | some entry =>
    simp only [merge_vision_step, hf]
    split_ifs <;> first | exact h | rfl

theorem merge_changed_mono (req_lookup : List (String × (String × String))) :
    ∀ (ps : List (String × String)) (st : VisionMergeState),
      st.changed = true →
      (ps.foldl (merge_vision_step req_lookup) st).changed = true := by
  intro ps
  induction ps with
  | nil => intro st h; exact h
  | cons p rest ih =>
    intro st h
    rw [List.foldl_cons]
    exact ih _ (merge_step_changed_mono req_lookup st p h)

/-- One merge step either leaves the cache and `changed` flag alone, or
sets `changed` and inserts the stripped (non-blank) vision text under
the looked-up cache key. -/
theorem merge_step_cache_cases (req_lookup : List (String × (String × String)))
    (st : VisionMergeState) (p : String × String) :
    ((merge_vision_step req_lookup st p).cache = st.cache ∧
      (merge_vision_step req_lookup st p).changed = st.changed) ∨
    ((merge_vision_step req_lookup st p).changed = true ∧
      ∃ entry, assoc_find req_lookup p.1 = some entry ∧ strip_str p.2 ≠ "" ∧
        (merge_vision_step req_lookup st p).cache =
          assoc_insert st.cache entry.2 (strip_str p.2)) := by
  cases hf : assoc_find req_lookup p.1 with
  | none => left; simp [merge_vision_step, hf]
  | some entry =>
    simp only [merge_vision_step, hf]
    split_ifs with h2 h3 h4
    · left; exact ⟨rfl, rfl⟩
    · left; exact ⟨rfl, rfl⟩
    · right; exact ⟨rfl, entry, rfl, h3, rfl⟩
    · left; exact ⟨rfl, rfl⟩

/-- If the merge loop never set `changed`, the cache is untouched. -/
theorem merge_unchanged (req_lookup : List (String × (String × String))) :
    ∀ (ps : List (String × String)) (st : VisionMergeState),
      (ps.foldl (merge_vision_step req_lookup) st).changed = false →
      (ps.foldl (merge_vision_step req_lookup) st).cache = st.cache := by
  intro ps
  induction ps with
  | nil => intro st _; rfl
  | cons p rest ih =>
    intro st h
    rw [List.foldl_cons] at h ⊢
    rcases merge_step_cache_cases req_lookup st p with ⟨hc, _⟩ | ⟨hch, _⟩
    · rw [ih _ h, hc]
    · have hall := merge_changed_mono req_lookup rest _ hch
      exact absurd (hall.symm.trans h) (by simp)

/-- Any key whose cached value the merge loop changed now holds a
non-blank caption. -/
theorem merge_cache_values (req_lookup : List (String × (String × String))) :
    ∀ (ps : List (String × String)) (st : VisionMergeState) (k : String),
      assoc_find (ps.foldl (merge_vision_step req_lookup) st).cache k =
        assoc_find st.cache k ∨
      ∃ v, assoc_find (ps.foldl (merge_vision_step req_lookup) st).cache k = some v ∧
        strip_str v ≠ "" := by
  intro ps
  induction ps with
  | nil => intro st k; exact Or.inl rfl
  | cons p rest ih =>
    intro st k
    rw [List.foldl_cons]
    rcases ih (merge_vision_step req_lookup st p) k with h | h
    · rw [h]
      rcases merge_step_cache_cases req_lookup st p with ⟨hc, _⟩ | ⟨_, entry, _, hnb, hc⟩
      · rw [hc]; exact Or.inl rfl
      · rw [hc]
        by_cases hk : k = entry.2
        · subst hk
          exact Or.inr ⟨strip_str p.2, assoc_find_insert_self _ _ _,
            by rw [strip_str_idem]; exact hnb⟩
        · exact Or.inl (assoc_find_insert_other _ _ _ _ hk)
    · exact Or.inr h

/-- Once a key holds a non-blank caption, merging keeps it non-blank. -/
theorem merge_preserves_nonblank (req_lookup : List (String × (String × String))) :
    ∀ (ps : List (String × String)) (st : VisionMergeState) (k : String),
      (∃ v, assoc_find st.cache k = some v ∧ strip_str v ≠ "") →
      ∃ v, assoc_find (ps.foldl (merge_vision_step req_lookup) st).cache k = some v ∧
        strip_str v ≠ "" := by
  intro ps
  induction ps with
  | nil => intro st k h; exact h
  | cons p rest ih =>
    intro st k h
    rw [List.foldl_cons]
    refine ih _ k ?_
    rcases merge_step_cache_cases req_lookup st p with ⟨hc, _⟩ | ⟨_, entry, _, hnb, hc⟩
    · rw [hc]; exact h
    · rw [hc]
      by_cases hk : k = entry.2
      · subst hk
        exact ⟨strip_str p.2, assoc_find_insert_self _ _ _,
          by rw [strip_str_idem]; exact hnb⟩
      · rw [assoc_find_insert_other _ _ _ _ hk]
        exact h

/-- One merge step for a looked-up path with non-blank vision text
leaves a non-blank caption in the cache under that path's cache key. -/
theorem merge_step_adds (req_lookup : List (String × (String × String)))
    (st : VisionMergeState) (p : String × String) (entry : String × String)
    (hf : assoc_find req_lookup p.1 = some entry) (hnb : strip_str p.2 ≠ "") :
    ∃ v, assoc_find (merge_vision_step req_lookup st p).cache entry.2 = some v ∧
      strip_str v ≠ "" := by
  have h2 : ¬ p.2 = "" := strip_str_ne_empty_of hnb
  simp only [merge_vision_step, hf]
  rw [if_neg h2, if_neg hnb]
  by_cases h4 : assoc_find st.cache entry.2 ≠ some (strip_str p.2)
  · rw [if_pos h4]
    exact ⟨strip_str p.2, assoc_find_insert_self _ _ _,
      by rw [strip_str_idem]; exact hnb⟩
  · rw [if_neg h4]
    push_neg at h4
    exact ⟨strip_str p.2, h4, by rw [strip_str_idem]; exact hnb⟩

/-- A pair the vision service returned for a looked-up path leaves a
non-blank caption in the cache under that path's cache key. -/
theorem merge_vision_adds (req_lookup : List (String × (String × String))) :
    ∀ (ps : List (String × String)) (st : VisionMergeState)
      (p : String × String) (entry : String × String),
      p ∈ ps → assoc_find req_lookup p.1 = some entry → strip_str p.2 ≠ "" →
      ∃ v, assoc_find (ps.foldl (merge_vision_step req_lookup) st).cache entry.2 =
        some v ∧ strip_str v ≠ "" := by
  intro ps
  induction ps with
  | nil => intro st p entry h; simp at h
  | cons q rest ih =>
    intro st p entry hmem hf hnb
    rw [List.foldl_cons]
    rcases List.mem_cons.mp hmem with rfl | hmem'
    · exact merge_preserves_nonblank req_lookup rest _ entry.2
        (merge_step_adds req_lookup st p entry hf hnb)
    · exact ih _ p entry hmem' hf hnb

/-! ## Request characterization of the cached caption lookup -/

theorem request_key_of_spec (env : RewriteEnv) (cache : List (String × String))
    (t : CaptionTarget) (k : String) (h : request_key_of env cache t = some k) :
    ∃ r blob, t.resolved = some r ∧ r.blob = some blob ∧ k = r.key ∧
      ∀ c, assoc_find cache (cache_key_of env blob) = some c → strip_str c = "" := by
  cases htr : t.resolved with
  | none => simp [request_key_of, htr] at h
  | some r =>
    cases hbl : r.blob with
    | none => simp [request_key_of, htr, hbl] at h
    | some blob =>
      refine ⟨r, blob, rfl, hbl, ?_, ?_⟩
      · cases hfind : assoc_find cache (cache_key_of env blob) with
        | none =>
          simp [request_key_of, htr, hbl, hfind] at h
          exact h.symm
        | some cached =>
          by_cases hcs : strip_str cached ≠ ""
          · simp [request_key_of, htr, hbl, hfind, hcs] at h
          · simp [request_key_of, htr, hbl, hfind, hcs] at h
            exact h.symm
      · intro c hc
        by_cases hcb : strip_str c = ""
        · exact hcb
        · simp [request_key_of, htr, hbl, hc, hcb] at h

/-- The request list of a cached run (with `clear_cache` off) is either
empty or exactly the first pass's `to_request` over the loaded cache. -/
theorem gclc_requested_eq (env : RewriteEnv) (cache0 : List (String × String))
    (cfp uo : Bool) (targets : List CaptionTarget) :
    (generate_caption_lookup_cached env cache0 cfp false uo targets).requested = [] ∨
    (generate_caption_lookup_cached env cache0 cfp false uo targets).requested =
      ((caption_candidates targets).foldl (cache_pass_step env cache0)
        ⟨[], [], []⟩).to_request := by
  simp only [generate_caption_lookup_cached]
  split_ifs <;> first | (left; rfl) | (right; rfl) | simp_all

theorem gclc_requested_mem (env : RewriteEnv) (cache0 : List (String × String))
    (cfp uo : Bool) (targets : List CaptionTarget) (k : String)
    (hk : k ∈ (generate_caption_lookup_cached env cache0 cfp false uo targets).requested) :
    ∃ t ∈ caption_candidates targets, request_key_of env cache0 t = some k := by
  rcases gclc_requested_eq env cache0 cfp uo targets with he | he
  · rw [he] at hk; simp at hk
  · rw [he, cache_pass_to_request env cache0 (caption_candidates targets) ⟨[], [], []⟩] at hk
    exact List.mem_filterMap.mp (by simpa using hk)

/-- A candidate whose cache key maps to a non-blank cached caption is
never sent to the vision service (assuming, as target deduplication
guarantees, that no other candidate shares its resolved file). -/
theorem gclc_hit_no_request (env : RewriteEnv) (cache0 : List (String × String))
    (cfp uo : Bool) (targets : List CaptionTarget) (t : CaptionTarget)
    (r : FileRef) (blob : List Nat) (c : String)
    (hr : t.resolved = some r) (hb : r.blob = some blob)
    (hc : assoc_find cache0 (cache_key_of env blob) = some c)
    (hcb : strip_str c ≠ "")
    (huniq : ∀ t' ∈ caption_candidates targets, ∀ r',
      t'.resolved = some r' → r'.key = r.key → t' = t) :
    r.key ∉ (generate_caption_lookup_cached env cache0 cfp false uo targets).requested := by
  intro hk
  obtain ⟨t', ht', hreq⟩ := gclc_requested_mem env cache0 cfp uo targets r.key hk
  obtain ⟨r', blob', hr', hb', hkey, hmiss⟩ := request_key_of_spec env cache0 t' _ hreq
  have ht'eq : t' = t := huniq t' ht' r' hr' hkey.symm
  subst ht'eq
  rw [hr] at hr'
  injection hr' with hre
  subst hre
  rw [hb] at hb'
  injection hb' with hbe
  subst hbe
  exact hcb (hmiss c hc)

/-- One cache-pass step either leaves `req_lookup` alone or records its
own file key under its own cache key. -/
theorem cache_pass_step_req_lookup (env : RewriteEnv)
    (cache : List (String × String)) (st : CachePassState) (q : CaptionTarget) :
    (cache_pass_step env cache st q).req_lookup = st.req_lookup ∨
    ∃ r' blob', q.resolved = some r' ∧ r'.blob = some blob' ∧
      (cache_pass_step env cache st q).req_lookup =
        assoc_insert st.req_lookup r'.key (q.id, cache_key_of env blob') := by
  cases htr : q.resolved with
  | none => left; simp [cache_pass_step, htr]
  | some r' =>
    cases hbl : r'.blob with
    | none => left; simp [cache_pass_step, htr, hbl]
    | some blob' =>
      cases hfind : assoc_find cache (cache_key_of env blob') with
      | some cached =>
        by_cases hc : strip_str cached ≠ ""
        · left; simp [cache_pass_step, htr, hbl, hfind, hc]
        · right
          exact ⟨r', blob', rfl, hbl, by simp [cache_pass_step, htr, hbl, hfind, hc]⟩
      | none =>
        right
        exact ⟨r', blob', rfl, hbl, by simp [cache_pass_step, htr, hbl, hfind]⟩

/-- A recorded `req_lookup` entry survives the rest of the cache pass
when no other candidate shares the file key. -/
theorem cache_pass_req_lookup_pres (env : RewriteEnv)
    (cache : List (String × String)) (t : CaptionTarget) (r : FileRef)
    (blob : List Nat) (htr : t.resolved = some r) (hbl : r.blob = some blob) :
    ∀ (ts : List CaptionTarget) (st : CachePassState),
      (∀ t' ∈ ts, ∀ r', t'.resolved = some r' → r'.key = r.key → t' = t) →
      assoc_find st.req_lookup r.key = some (t.id, cache_key_of env blob) →
      assoc_find (ts.foldl (cache_pass_step env cache) st).req_lookup r.key =
        some (t.id, cache_key_of env blob) := by
  intro ts
  induction ts with
  | nil => intro st _ h; exact h
  | cons q rest ih =>
    intro st huniq h
    rw [List.foldl_cons]
    refine ih _ (fun t' ht' => huniq t' (List.mem_cons_of_mem q ht')) ?_
    rcases cache_pass_step_req_lookup env cache st q with he | ⟨r', blob', hqr, hqb, he⟩
    · rw [he]; exact h
    · rw [he]
      by_cases hk : r'.key = r.key
      · have hq : q = t := huniq q (List.mem_cons_self q rest) r' hqr hk
        subst hq
        rw [htr] at hqr
        injection hqr with hre
        subst hre
        rw [hbl] at hqb
        injection hqb with hbe
        subst hbe
        rw [hk]
        exact assoc_find_insert_self _ _ _
      · rw [assoc_find_insert_other _ _ _ _ (fun hc => hk hc.symm)]
        exact h

/-- A processed candidate whose cache key is a miss (or blank hit)
appears in the final `req_lookup` under its file key, paired with its
asset id and cache key. -/
theorem cache_pass_req_lookup (env : RewriteEnv)
    (cache : List (String × String)) (t : CaptionTarget) (r : FileRef)
    (blob : List Nat) (htr : t.resolved = some r) (hbl : r.blob = some blob)
    (hmiss : ∀ c, assoc_find cache (cache_key_of env blob) = some c →
      strip_str c = "") :
    ∀ (ts : List CaptionTarget) (st : CachePassState),
      t ∈ ts →
      (∀ t' ∈ ts, ∀ r', t'.resolved = some r' → r'.key = r.key → t' = t) →
      assoc_find (ts.foldl (cache_pass_step env cache) st).req_lookup r.key =
        some (t.id, cache_key_of env blob) := by
  intro ts
  induction ts with
  | nil => intro st hmem; simp at hmem
  | cons q rest ih =>
    intro st hmem huniq
    rw [List.foldl_cons]
    rcases List.mem_cons.mp hmem with rfl | hmem'
    · have hstep : (cache_pass_step env cache st t).req_lookup =
          assoc_insert st.req_lookup r.key (t.id, cache_key_of env blob) := by
        cases hfind : assoc_find cache (cache_key_of env blob) with
        | none => simp [cache_pass_step, htr, hbl, hfind]
        | some cached =>
          simp [cache_pass_step, htr, hbl, hfind, hmiss cached hfind]
      refine cache_pass_req_lookup_pres env cache t r blob htr hbl rest _
        (fun t' ht' => huniq t' (List.mem_cons_of_mem t ht')) ?_
      rw [hstep]
      exact assoc_find_insert_self _ _ _
    · exact ih _ hmem' (fun t' ht' => huniq t' (List.mem_cons_of_mem q ht'))

/-- When `saved` is false (no entry changed), the on-disk cache is
returned untouched. -/
theorem gclc_saved_false_cache_eq (env : RewriteEnv)
    (cache0 : List (String × String)) (cfp uo : Bool)
    (targets : List CaptionTarget)
    (h : (generate_caption_lookup_cached env cache0 cfp false uo targets).saved
      = false) :
    (generate_caption_lookup_cached env cache0 cfp false uo targets).new_cache
      = cache0 := by
  simp only [generate_caption_lookup_cached] at h ⊢
  split_ifs at h ⊢ <;>
    first
      | rfl
      | exact merge_unchanged _ _ _ h
      | simp_all

/-- Every cache entry is either the loaded one or a freshly merged
non-blank caption. -/
theorem gclc_cache_change_nonblank (env : RewriteEnv)
    (cache0 : List (String × String)) (cfp uo : Bool)
    (targets : List CaptionTarget) (k : String) :
    assoc_find (generate_caption_lookup_cached env cache0 cfp false uo
        targets).new_cache k = assoc_find cache0 k ∨
    ∃ v, assoc_find (generate_caption_lookup_cached env cache0 cfp false uo
        targets).new_cache k = some v ∧ strip_str v ≠ "" := by
  simp only [generate_caption_lookup_cached]
  split_ifs <;>
    first
      | (left; rfl)
      | exact merge_cache_values _ _ _ k
      | simp_all

/-- When a request actually went out, the run took the vision branch:
the request list is the pass's `to_request` and the returned cache is
the merge of the vision answers into the loaded cache. -/
theorem gclc_merge_branch (env : RewriteEnv) (cache0 : List (String × String))
    (cfp uo : Bool) (targets : List CaptionTarget)
    (hne : (generate_caption_lookup_cached env cache0 cfp false uo
      targets).requested ≠ []) :
    (generate_caption_lookup_cached env cache0 cfp false uo targets).requested =
      ((caption_candidates targets).foldl (cache_pass_step env cache0)
        ⟨[], [], []⟩).to_request ∧
    (generate_caption_lookup_cached env cache0 cfp false uo targets).new_cache =
      ((env.vision ((caption_candidates targets).foldl (cache_pass_step env cache0)
          ⟨[], [], []⟩).to_request).foldl
        (merge_vision_step ((caption_candidates targets).foldl
          (cache_pass_step env cache0) ⟨[], [], []⟩).req_lookup)
        ⟨((caption_candidates targets).foldl (cache_pass_step env cache0)
          ⟨[], [], []⟩).captions, cache0, false⟩).cache := by
  simp only [generate_caption_lookup_cached] at hne ⊢
  split_ifs at hne ⊢ <;>
    first
      | exact absurd rfl hne
      | exact ⟨rfl, rfl⟩
      | simp_all

/-- The cache round trip: once the vision service has answered
non-blank text for an image, a second cached run over the merged cache
never requests that image again. -/
theorem gclc_round_trip (env : RewriteEnv) (cache0 : List (String × String))
    (cfp cfp2 uo uo2 : Bool) (targets : List CaptionTarget)
    (t : CaptionTarget) (r : FileRef) (blob : List Nat) (text : String)
    (ht : t ∈ caption_candidates targets)
    (htr : t.resolved = some r) (hbl : r.blob = some blob)
    (huniq : ∀ t' ∈ caption_candidates targets, ∀ r',
      t'.resolved = some r' → r'.key = r.key → t' = t)
    (hreq : r.key ∈ (generate_caption_lookup_cached env cache0 cfp false uo
      targets).requested)
    (hvis : (r.key, text) ∈ env.vision
      (generate_caption_lookup_cached env cache0 cfp false uo targets).requested)
    (hnb : strip_str text ≠ "") :
    r.key ∉ (generate_caption_lookup_cached env
      (generate_caption_lookup_cached env cache0 cfp false uo targets).new_cache
      cfp2 false uo2 targets).requested := by
  have hne : (generate_caption_lookup_cached env cache0 cfp false uo
      targets).requested ≠ [] := List.ne_nil_of_mem hreq
  obtain ⟨hreq_eq, hcache_eq⟩ := gclc_merge_branch env cache0 cfp uo targets hne
  have hmiss0 : ∀ c, assoc_find cache0 (cache_key_of env blob) = some c →
      strip_str c = "" := by
    obtain ⟨t', ht', hrk⟩ := gclc_requested_mem env cache0 cfp uo targets r.key hreq
    obtain ⟨r', blob', hr', hb', hkey, hmiss⟩ :=
      request_key_of_spec env cache0 t' _ hrk
    have ht'eq : t' = t := huniq t' ht' r' hr' hkey.symm
    subst ht'eq
    rw [htr] at hr'
    injection hr' with hre
    subst hre
    rw [hbl] at hb'
    injection hb' with hbe
    subst hbe
    exact hmiss
  have hlookup : assoc_find ((caption_candidates targets).foldl
      (cache_pass_step env cache0) ⟨[], [], []⟩).req_lookup r.key =
      some (t.id, cache_key_of env blob) :=
    cache_pass_req_lookup env cache0 t r blob htr hbl hmiss0
      (caption_candidates targets) ⟨[], [], []⟩ ht huniq
  have hvis' : (r.key, text) ∈ env.vision ((caption_candidates targets).foldl
      (cache_pass_step env cache0) ⟨[], [], []⟩).to_request := by
    rwa [hreq_eq] at hvis
  have hadded : ∃ v, assoc_find (generate_caption_lookup_cached env cache0 cfp
      false uo targets).new_cache (cache_key_of env blob) = some v ∧
      strip_str v ≠ "" := by
    rw [hcache_eq]
    exact merge_vision_adds _ _ _ (r.key, text) (t.id, cache_key_of env blob)
      hvis' hlookup hnb
  obtain ⟨v, hv, hvnb⟩ := hadded
  intro hk2
  obtain ⟨t', ht', hrk⟩ := gclc_requested_mem env _ cfp2 uo2 targets r.key hk2
  obtain ⟨r', blob', hr', hb', hkey, hmiss⟩ := request_key_of_spec env _ t' _ hrk
  have ht'eq : t' = t := huniq t' ht' r' hr' hkey.symm
  subst ht'eq
  rw [htr] at hr'
  injection hr' with hre
  subst hre
  rw [hbl] at hb'
  injection hb' with hbe
  subst hbe
  exact hvnb (hmiss v hv)

/-- C4: in cached captioning mode the cache key is the model identifier
joined to the content digest of the image bytes
(`{model}::{sha1(bytes)}`); a candidate whose key holds a non-blank
cached caption is never sent to the vision service; when no entry
changed the cache file is not rewritten and the cache is returned
untouched; every changed cache entry is a freshly merged non-blank
caption; and once the vision service has answered non-blank text for an
image, a second cached run over the merged cache never requests the
same bytes/model pair again, regardless of which document references
the image. -/
theorem C4_caption_cache :
    (∀ env blob, cache_key_of env blob = env.model_key ++ "::" ++ env.digest blob) ∧
    (∀ (env : RewriteEnv) cache0 (cfp uo : Bool) targets (t : CaptionTarget)
      r blob c,
      t.resolved = some r → r.blob = some blob →
      assoc_find cache0 (cache_key_of env blob) = some c → strip_str c ≠ "" →
      (∀ t' ∈ caption_candidates targets, ∀ r',
        t'.resolved = some r' → r'.key = r.key → t' = t) →
      r.key ∉ (generate_caption_lookup_cached env cache0 cfp false uo
        targets).requested) ∧
    (∀ (env : RewriteEnv) cache0 (cfp uo : Bool) targets,
      (generate_caption_lookup_cached env cache0 cfp false uo targets).saved
        = false →
      (generate_caption_lookup_cached env cache0 cfp false uo targets).new_cache
        = cache0) ∧
    (∀ (env : RewriteEnv) cache0 (cfp uo : Bool) targets k,
      assoc_find (generate_caption_lookup_cached env cache0 cfp false uo
          targets).new_cache k = assoc_find cache0 k ∨
      ∃ v, assoc_find (generate_caption_lookup_cached env cache0 cfp false uo
          targets).new_cache k = some v ∧ strip_str v ≠ "") ∧
    (∀ (env : RewriteEnv) cache0 (cfp cfp2 uo uo2 : Bool) targets
      (t : CaptionTarget) r blob text,
      t ∈ caption_candidates targets →
      t.resolved = some r → r.blob = some blob →
      (∀ t' ∈ caption_candidates targets, ∀ r',
        t'.resolved = some r' → r'.key = r.key → t' = t) →
      r.key ∈ (generate_caption_lookup_cached env cache0 cfp false uo
        targets).requested →
      (r.key, text) ∈ env.vision (generate_caption_lookup_cached env cache0 cfp
        false uo targets).requested →
      strip_str text ≠ "" →
      r.key ∉ (generate_caption_lookup_cached env
        (generate_caption_lookup_cached env cache0 cfp false uo
          targets).new_cache
        cfp2 false uo2 targets).requested) := by
  refine ⟨fun env blob => rfl, ?_, ?_, ?_, ?_⟩
  · exact fun env cache0 cfp uo targets t r blob c h1 h2 h3 h4 h5 =>
      gclc_hit_no_request env cache0 cfp uo targets t r blob c h1 h2 h3 h4 h5
  · exact fun env cache0 cfp uo targets h =>
      gclc_saved_false_cache_eq env cache0 cfp uo targets h
  · exact fun env cache0 cfp uo targets k =>
      gclc_cache_change_nonblank env cache0 cfp uo targets k
  · exact fun env cache0 cfp cfp2 uo uo2 targets t r blob text h1 h2 h3 h4 h5 h6 h7 =>
      gclc_round_trip env cache0 cfp cfp2 uo uo2 targets t r blob text
        h1 h2 h3 h4 h5 h6 h7

/-- C4 (witness): one candidate over an empty cache is requested once,
the vision answer `"a cat"` is merged into the cache, and a second run
over the merged cache does not request the image again. -/
theorem C4_witness :
    witness_target ∈ caption_candidates [witness_target] ∧
    witness_file.key ∈ (generate_caption_lookup_cached vision_test_env []
      false false false [witness_target]).requested ∧
    strip_str "a cat" ≠ "" ∧
    witness_file.key ∉ (generate_caption_lookup_cached vision_test_env
      (generate_caption_lookup_cached vision_test_env [] false false false
        [witness_target]).new_cache
      false false false [witness_target]).requested := by
  refine ⟨by decide, by decide, by decide, ?_⟩
  exact C4_caption_cache.2.2.2.2 vision_test_env [] false false false false
    [witness_target] witness_target witness_file [1, 2, 3] "a cat"
    (by decide) rfl rfl
    (by
      intro t' ht' r' hres hkey
      have hl : caption_candidates [witness_target] = [witness_target] := rfl
      rw [hl] at ht'
      exact List.mem_singleton.mp ht')
    (by decide) (by decide) (by decide)

/-! ## The substitution loop and normalization (`C7`) -/

/-- The cursor fold of `splice_entries`, generalized over its starting
state, equals the declarative splice. -/
theorem splice_fold_eq (raw : List Char) :
    ∀ (items : List (Nat × Nat × List Char)) (st : List Char × Nat),
      (items.foldl (fun (acc : List Char × Nat) it =>
          (acc.1 ++ slice raw acc.2 it.1 ++ it.2.2, it.2.1)) st).1 ++
        raw.drop (items.foldl (fun (acc : List Char × Nat) it =>
          (acc.1 ++ slice raw acc.2 it.1 ++ it.2.2, it.2.1)) st).2 =
      st.1 ++ out_segments raw st.2 items := by
  intro items
  induction items with
  | nil => intro st; rfl
  | cons it rest ih =>
    intro st
    simp only [List.foldl_cons]
    rw [ih (st.1 ++ slice raw st.2 it.1 ++ it.2.2, it.2.1)]
    simp [out_segments, List.append_assoc]

/-- The cursor loop of the substitution pass is the declarative splice:
the text between consecutive spans is preserved verbatim and each span
is replaced by its replacement. -/
theorem splice_entries_eq_out_segments (raw : List Char)
    (items : List (Nat × Nat × List Char)) :
    splice_entries raw items = out_segments raw 0 items := by
  have h := splice_fold_eq raw items ([], 0)
  simpa [splice_entries] using h

/-- C7 (counterexample): the written file does not always end with
exactly one trailing newline — empty input is written back empty (no
newline at all), and input ending in a blank line keeps both of its
trailing newlines. -/
theorem C7_counterexample :
    (rewrite_markdown_with_captions test_env [] "h" [] false false false
      true).written = [] ∧
    (rewrite_markdown_with_captions test_env ("a\n\n".toList) "h" [] false false
      false true).written = "a\n\n".toList ∧
    ("a\n\n".toList).getLast? = some '\n' ∧
    ("a\n\n".toList).dropLast.getLast? = some '\n' := by
  have h1 : find_image_tags ([] : List Char) = [] := by
    rw [find_image_tags_eval]; decide
  have h2 : find_image_tags ("a\n\n".toList) = [] := by
    rw [find_image_tags_eval]; decide
  refine ⟨?_, ?_, by decide, by decide⟩
  · simp only [rewrite_markdown_with_captions]
    rw [if_pos (by rw [h1]; rfl)]
    decide
  · simp only [rewrite_markdown_with_captions]
    rw [if_pos (by rw [h2]; rfl)]
    decide

/-- C7: the written output is the normalization of the spliced text:
the cursor loop equals the declarative splice; the written text is the
normalized splice of the recognized spans (the raw text itself when
there is no tag — malformed syntax is preserved); the substituted spans
are exactly the recognized tags' spans; every replacement is a caption
wrapped in the fixed start/end markers; spans are ordered,
non-overlapping and inside the text; normalization rstrips every line
and appends one newline exactly when at least one line exists; and a
malformed candidate passes through unchanged up to the appended
newline. -/
theorem C7_rewrite_normalization :
    (∀ (raw : List Char) (items : List (Nat × Nat × List Char)),
      splice_entries raw items = out_segments raw 0 items) ∧
    (∀ (env : RewriteEnv) (raw : List Char) source_hash cache0
      (cfp cc uo dc : Bool),
      (rewrite_markdown_with_captions env raw source_hash cache0 cfp cc uo
        dc).written =
      if (find_image_tags raw).isEmpty then normalize_markdown raw
      else normalize_markdown (out_segments raw 0 (items_of env source_hash raw
        (caption_result_of env source_hash raw cache0 cfp cc uo dc).captions))) ∧
    (∀ (env : RewriteEnv) source_hash (raw : List Char) cl,
      (items_of env source_hash raw cl).map (fun it => (it.1, it.2.1)) =
        (find_image_tags raw).map (fun tag => (tag.start, tag.stop))) ∧
    (∀ core, wrapped_caption core =
      (CAPTION_START_MARKER ++ " " ++ core ++ " " ++ CAPTION_END_MARKER).toList) ∧
    (∀ (env : RewriteEnv) source_hash (raw : List Char) cl it,
      it ∈ items_of env source_hash raw cl →
      ∃ core, it.2.2 = wrapped_caption core) ∧
    (∀ t : List Char,
      (∀ tag ∈ find_image_tags t, tag.start < tag.stop ∧ tag.stop ≤ t.length) ∧
      (find_image_tags t).Chain' (fun a b => a.stop ≤ b.start)) ∧
    (∀ text : List Char,
      normalize_markdown text =
        List.intercalate ['\n'] ((py_splitlines text).map py_rstrip) ++
          (if (py_splitlines text).isEmpty then [] else ['\n'])) ∧
    (∀ text : List Char, py_splitlines text ≠ [] →
      (normalize_markdown text).getLast? = some '\n') ∧
    (rewrite_markdown_with_captions test_env ("x ![ab (c".toList) "h" [] false
      false false true).written = "x ![ab (c".toList ++ ['\n'] := by
  refine ⟨splice_entries_eq_out_segments, ?_, ?_, fun core => rfl, ?_, ?_, ?_,
    ?_, ?_⟩
  · intro env raw source_hash cache0 cfp cc uo dc
    by_cases he : (find_image_tags raw).isEmpty = true
    · simp only [rewrite_markdown_with_captions]
      rw [if_pos he, if_pos he]
    · simp only [rewrite_markdown_with_captions]
      rw [if_neg he, if_neg he, splice_entries_eq_out_segments]
  · intro env source_hash raw cl
    simp only [items_of, entries_of]
    rw [List.map_map, List.map_map]
    rfl
  · intro env source_hash raw cl it hit
    simp only [items_of, entries_of] at hit
    obtain ⟨e, he, rfl⟩ := List.mem_map.mp hit
    exact ⟨_, rfl⟩
  · intro t
    obtain ⟨hb, hc⟩ := find_image_tags_from_sorted t 0
    exact ⟨fun tag ht => ⟨(hb tag ht).2.1, (hb tag ht).2.2⟩, hc⟩
  · intro text
    simp only [normalize_markdown]
    split_ifs <;> simp
  · intro text h
    have hcond : ¬ ((py_splitlines text).isEmpty = true) := by
      cases hl : py_splitlines text with
      | nil => exact absurd hl h
      | cons x xs => simp
    simp only [normalize_markdown]
    rw [if_neg hcond]
    simp
  · have htags : find_image_tags ("x ![ab (c".toList) = [] := by
      rw [find_image_tags_eval]; decide
    simp only [rewrite_markdown_with_captions]
    rw [if_pos (by rw [htags]; rfl)]
    decide

/-- C7 (witness): a one-line text has a line, and its normalization
ends with a newline. -/
theorem C7_witness :
    py_splitlines ("a".toList) ≠ [] ∧
    (normalize_markdown ("a".toList)).getLast? = some '\n' :=
  ⟨by decide, C7_rewrite_normalization.2.2.2.2.2.2.2.1 ("a".toList) (by decide)⟩

/-- C6: the scanner recognizes exactly the `![alt](destination)` spans
described by the spec: it agrees with the spec-worded scanner (alt span
up to the first unescaped `]` with backslash skipping two characters,
accepted only when immediately followed by `(`, destination closed by
balanced-parenthesis matching with the same escape skipping, malformed
candidates yielding no tag with the scan resuming past them), the
destination extraction agrees with the spec-worded one (angle-bracket
unwrapping, else up to the first unescaped whitespace), and concrete
cases: nested parentheses, an angle-wrapped destination with spaces, a
malformed candidate followed by a valid tag, an unterminated `]`, and a
`]` not followed by `(`. -/
theorem C6_scanner :
    (∀ t : List Char, find_image_tags t = spec_find_image_tags t) ∧
    (∀ raw : List Char, extract_destination raw = spec_extract_destination raw) ∧
    find_image_tags ("![a]((x) y)".toList) = [⟨0, 11, "a".toList, "(x)".toList⟩] ∧
    find_image_tags ("![a](<d e> t)".toList) = [⟨0, 13, "a".toList, "d e".toList⟩] ∧
    find_image_tags ("![a](b c ![d](e)".toList) = [⟨9, 16, "d".toList, "e".toList⟩] ∧
    find_image_tags ("![ab (c)".toList) = [] ∧
    find_image_tags ("![a] (b)".toList) = [] := by
  refine ⟨?_, extract_destination_eq_spec, ?_, ?_, ?_, ?_, ?_⟩
  · intro t
    rw [find_image_tags, spec_find_image_tags, find_image_tags_from_eq_spec]
  all_goals rw [find_image_tags_eval]
  all_goals decide

/-! ## Missing-credential behaviour (`ensure_api_key` failure) -/

/-- No-cache mode without a credential: captioning is skipped entirely. -/
theorem gcl_nocache_no_key (env : RewriteEnv) (cache0 : List (String × String))
    (targets : List CaptionTarget) (h : ¬ env.vision_ok = true) :
    generate_caption_lookup_nocache env cache0 targets = ⟨[], [], cache0, false⟩ := by
  simp only [generate_caption_lookup_nocache]
  split_ifs <;> rfl

/-- Cached mode without a credential: the vision service is never
called. -/
theorem gclc_no_key_no_request (env : RewriteEnv)
    (cache0 : List (String × String)) (cfp cc uo : Bool)
    (targets : List CaptionTarget) (h : ¬ env.vision_ok = true) :
    (generate_caption_lookup_cached env cache0 cfp cc uo targets).requested = [] := by
  simp only [generate_caption_lookup_cached]
  split_ifs <;> first | rfl | simp_all

/-- A bucket id missing from the caption lookup falls back to the
(blank-guarded) fallback caption. -/
theorem bucket_caption_none (env : RewriteEnv) (cl : List (String × String))
    (b : MediaBucket) (h : assoc_find cl b.id = none) :
    bucket_caption env cl b =
      if strip_str (fallback_caption env b) ≠ "" then fallback_caption env b
      else "[이미지]" := by
  simp [bucket_caption, h]

/-- First step of the `_fallback_caption` chain: the first non-blank
alt, stripped. -/
theorem fallback_caption_alt (env : RewriteEnv) (b : MediaBucket) (a : String)
    (h : b.alts.find? (fun x => strip_str x ≠ "") = some a) :
    fallback_caption env b = strip_str a := by
  unfold fallback_caption
  rw [h]

/-- Second step: no non-blank alt and a resolved file give its stem. -/
theorem fallback_caption_stem (env : RewriteEnv) (b : MediaBucket) (r : FileRef)
    (hna : b.alts.find? (fun x => strip_str x ≠ "") = none)
    (hr : b.resolved = some r) :
    fallback_caption env b = r.stem := by
  unfold fallback_caption
  rw [hna, hr]

/-- Later steps: unresolved buckets use the raw destination's stem, the
raw destination itself, or the placeholder. -/
theorem fallback_caption_raw (env : RewriteEnv) (b : MediaBucket)
    (hna : b.alts.find? (fun x => strip_str x ≠ "") = none)
    (hr : b.resolved = none) :
    fallback_caption env b =
      (if b.raw_path ≠ "" then
        (if path_stem (env.unquote b.raw_path) ≠ ""
          then path_stem (env.unquote b.raw_path) else b.raw_path)
      else "[이미지]") := by
  unfold fallback_caption
  rw [hna, hr]

/-- Without a credential, a no-cache rewrite captions every asset by
the blank-guarded fallback chain. -/
theorem no_key_assets (env : RewriteEnv) (raw : List Char) (source_hash : String)
    (cache0 : List (String × String)) (cfp cc uo : Bool)
    (h : ¬ env.vision_ok = true) :
    (rewrite_markdown_with_captions env raw source_hash cache0 cfp cc uo
      true).assets =
    (buckets_of env source_hash raw).map (fun b =>
      { id := b.id,
        source_file := match b.resolved with
          | some r => r.path_str
          | none => env.unquote b.raw_path,
        caption := if strip_str (fallback_caption env b) ≠ ""
          then fallback_caption env b else "[이미지]" }) := by
  by_cases he : (find_image_tags raw).isEmpty = true
  · have hnil : find_image_tags raw = [] := by
      cases hfi : find_image_tags raw with
      | nil => rfl
      | cons x xs => rw [hfi] at he; exact absurd he (by simp)
    simp only [rewrite_markdown_with_captions]
    rw [if_pos he]
    simp [buckets_of, entries_of, hnil, mk_buckets]
  · simp only [rewrite_markdown_with_captions]
    rw [if_neg he]
    have hcap : (caption_result_of env source_hash raw cache0 cfp cc uo
        true).captions = [] := by
      unfold caption_result_of generate_caption_lookup
      rw [if_pos rfl, gcl_nocache_no_key env cache0 _ h]
    rw [hcap]
    have hbc : ∀ b : MediaBucket,
        bucket_caption env ([] : List (String × String)) b =
          if strip_str (fallback_caption env b) ≠ "" then fallback_caption env b
          else "[이미지]" := fun b => bucket_caption_none env [] b rfl
    simp only [hbc]

/-- C9 (counterexample): with caching enabled and no API key, a cache
hit still captions the asset from the on-disk cache — bypassing the
claimed fallback chain, whose value here would be the resolved file's
stem `"img"`. -/
theorem C9_counterexample :
    test_env.vision_ok = false ∧
    ((rewrite_markdown_with_captions test_env ("![](img.png)".toList) "h"
        [("M::D", "cached cat")] false false false false).assets.map
      (fun a => a.caption)) = ["cached cat"] ∧
    (buckets_of test_env "h" ("![](img.png)".toList)).map
      (fun b => fallback_caption test_env b) = ["img"] ∧
    ("cached cat" : String) ≠ "img" ∧ ("cached cat" : String) ≠ "[이미지]" := by
  have htags : find_image_tags ("![](img.png)".toList) =
      [⟨0, 12, [], "img.png".toList⟩] := by
    rw [find_image_tags_eval]; decide
  have hentries : entries_of test_env ("![](img.png)".toList) =
      [mk_entry test_env ⟨0, 12, [], "img.png".toList⟩] := by
    unfold entries_of
    rw [htags, List.map_cons, List.map_nil]
  have hbuckets : buckets_of test_env "h" ("![](img.png)".toList) =
      [⟨"h_img_000",
        some ⟨"/m/img.png", "img", "/m/img.png", true, some [1, 2, 3]⟩,
        "img.png", [""]⟩] := by
    unfold buckets_of
    rw [hentries]
    decide
  refine ⟨rfl, ?_, ?_, by decide, by decide⟩
  · have hcond : ¬ ((find_image_tags ("![](img.png)".toList)).isEmpty = true) := by
      rw [htags]; simp
    have hcap : (caption_result_of test_env "h" ("![](img.png)".toList)
        [("M::D", "cached cat")] false false false false).captions =
        [("h_img_000", "cached cat")] := by
      unfold caption_result_of generate_caption_lookup
      rw [if_neg (by simp : ¬ ((false : Bool) = true)), hbuckets]
      decide
    simp only [rewrite_markdown_with_captions]
    rw [if_neg hcond, hcap, hbuckets]
    decide
  · rw [hbuckets]
    decide

/-- C9: without a usable credential the rewrite still succeeds and no
vision request is made in either mode; in no-cache mode (the pipeline's
mode) the lookup is empty, so every asset's caption is the blank-guarded
fallback chain: the first non-blank accumulated alt text (stripped),
else the resolved file's stem, else (for unresolved buckets) the raw
destination's stem, the raw destination, or the placeholder
`"[이미지]"`. -/
theorem C9_no_key_fallback :
    (∀ (env : RewriteEnv) cache0 (cfp cc uo : Bool) targets,
      ¬ env.vision_ok = true →
      (generate_caption_lookup env cache0 cfp cc uo true targets).captions = [] ∧
      (generate_caption_lookup env cache0 cfp cc uo true targets).requested = []) ∧
    (∀ (env : RewriteEnv) cache0 (cfp cc uo : Bool) targets,
      ¬ env.vision_ok = true →
      (generate_caption_lookup_cached env cache0 cfp cc uo targets).requested
        = []) ∧
    (∀ (env : RewriteEnv) cl (b : MediaBucket), assoc_find cl b.id = none →
      bucket_caption env cl b =
        if strip_str (fallback_caption env b) ≠ "" then fallback_caption env b
        else "[이미지]") ∧
    (∀ (env : RewriteEnv) (b : MediaBucket) a,
      b.alts.find? (fun x => strip_str x ≠ "") = some a →
      fallback_caption env b = strip_str a) ∧
    (∀ (env : RewriteEnv) (b : MediaBucket) r,
      b.alts.find? (fun x => strip_str x ≠ "") = none → b.resolved = some r →
      fallback_caption env b = r.stem) ∧
    (∀ (env : RewriteEnv) (b : MediaBucket),
      b.alts.find? (fun x => strip_str x ≠ "") = none → b.resolved = none →
      fallback_caption env b =
        (if b.raw_path ≠ "" then
          (if path_stem (env.unquote b.raw_path) ≠ ""
            then path_stem (env.unquote b.raw_path) else b.raw_path)
        else "[이미지]")) ∧
    (∀ (env : RewriteEnv) raw source_hash cache0 (cfp cc uo : Bool),
      ¬ env.vision_ok = true →
      (rewrite_markdown_with_captions env raw source_hash cache0 cfp cc uo
        true).assets =
      (buckets_of env source_hash raw).map (fun b =>
        { id := b.id,
          source_file := match b.resolved with
            | some r => r.path_str
            | none => env.unquote b.raw_path,
          caption := if strip_str (fallback_caption env b) ≠ ""
            then fallback_caption env b else "[이미지]" })) := by
  refine ⟨?_, ?_, ?_, ?_, ?_, ?_, ?_⟩
  · intro env cache0 cfp cc uo targets h
    unfold generate_caption_lookup
    rw [if_pos rfl, gcl_nocache_no_key env cache0 targets h]
    exact ⟨rfl, rfl⟩
  · exact fun env cache0 cfp cc uo targets h =>
      gclc_no_key_no_request env cache0 cfp cc uo targets h
  · exact fun env cl b h => bucket_caption_none env cl b h
  · exact fun env b a h => fallback_caption_alt env b a h
  · exact fun env b r hna hr => fallback_caption_stem env b r hna hr
  · exact fun env b hna hr => fallback_caption_raw env b hna hr
  · exact fun env raw source_hash cache0 cfp cc uo h =>
      no_key_assets env raw source_hash cache0 cfp cc uo h

/-- C9 (witness): a no-cache rewrite of `![](img.png)` under the
credential-less test environment captions its asset by the fallback
chain. -/
theorem C9_witness :
    (¬ test_env.vision_ok = true) ∧
    (rewrite_markdown_with_captions test_env ("![](img.png)".toList) "h" []
        false false false true).assets =
      (buckets_of test_env "h" ("![](img.png)".toList)).map (fun b =>
        { id := b.id,
          source_file := match b.resolved with
            | some r => r.path_str
            | none => test_env.unquote b.raw_path,
          caption := if strip_str (fallback_caption test_env b) ≠ ""
            then fallback_caption test_env b else "[이미지]" }) :=
  ⟨by decide,
    C9_no_key_fallback.2.2.2.2.2.2 test_env ("![](img.png)".toList) "h" []
      false false false (by decide)⟩

/-- C5: within one document, image tags whose destinations share a
target key (resolved canonical path, or raw destination when
unresolved) are merged: both occurrences get the same asset id, the
deduplicated targets have pairwise distinct keys, each target
accumulates the alt candidates of all its tags in order, asset ids are
assigned exactly once per unique target
(`{source_hash}_img_{index:03d}`), the cached caption lookup requests
each target's file at most once, and every substitution site of a
merged target receives the same replacement text. -/
theorem C5_target_dedup :
    (∀ source_hash entries (e1 e2 : MediaEntry), e1 ∈ entries → e2 ∈ entries →
      entry_key e1 = entry_key e2 →
      asset_id_of source_hash entries e1 = asset_id_of source_hash entries e2) ∧
    (∀ source_hash entries, ((mk_buckets source_hash entries).map bucket_key).Nodup) ∧
    (∀ source_hash entries b, b ∈ mk_buckets source_hash entries →
      b.alts = (entries.filter (fun e => entry_key e = bucket_key b)).map (·.alt)) ∧
    (∀ source_hash entries (i : Nat) (h : i < (mk_buckets source_hash entries).length),
      (mk_buckets source_hash entries)[i].id = source_hash ++ "_img_" ++ pad3 i) ∧
    (∀ env cache0 cfp cc uo source_hash entries,
      (generate_caption_lookup_cached env cache0 cfp cc uo
        ((mk_buckets source_hash entries).map
          (fun b => ⟨b.id, b.resolved⟩))).requested.Nodup) ∧
    (∀ env cl source_hash entries (e1 e2 : MediaEntry),
      e1 ∈ entries → e2 ∈ entries → entry_key e1 = entry_key e2 →
      replacement_core (caption_by_asset_of env cl (mk_buckets source_hash entries))
          (asset_id_of source_hash entries e1) e1 =
        replacement_core (caption_by_asset_of env cl (mk_buckets source_hash entries))
          (asset_id_of source_hash entries e2) e2) := by
  refine ⟨?_, ?_, ?_, ?_, ?_, ?_⟩
  · intro source_hash entries e1 e2 _ _ hk
    exact asset_id_of_eq_of_key source_hash entries e1 e2 hk
  · intro source_hash entries
    exact (mk_buckets_inv source_hash entries).nodup
  · intro source_hash entries b hb
    exact (mk_buckets_inv source_hash entries).alts b hb
  · intro source_hash entries i h
    exact (mk_buckets_inv source_hash entries).ids i h
  · intro env cache0 cfp cc uo source_hash entries
    exact gclc_requested_nodup env cache0 cfp cc uo _
      (mk_buckets_inv source_hash entries).nodup
  · intro env cl source_hash entries e1 e2 h1 h2 hk
    obtain ⟨b1, hb1, hkey1, hid1⟩ := asset_id_of_mem source_hash entries e1 h1
    have hide : asset_id_of source_hash entries e1 = asset_id_of source_hash entries e2 :=
      asset_id_of_eq_of_key source_hash entries e1 e2 hk
    obtain ⟨b', hb', hfind⟩ := caption_by_find_self env cl _ b1 hb1
    have hnb := bucket_caption_nonblank env cl b'
    rw [hid1, hide.symm.trans hid1,
      replacement_core_of_find _ _ e1 _ hfind hnb,
      replacement_core_of_find _ _ e2 _ hfind hnb]

/-- C5 (witness): two unresolved tags with the same raw destination get
the same asset id, their alts are accumulated, and the replacement text
at both sites agrees. -/
theorem C5_witness :
    asset_id_of "h"
        [⟨0, 5, "x", "img.png", none, "x"⟩, ⟨7, 12, "y", "img.png", none, "y"⟩]
        ⟨0, 5, "x", "img.png", none, "x"⟩ =
      asset_id_of "h"
        [⟨0, 5, "x", "img.png", none, "x"⟩, ⟨7, 12, "y", "img.png", none, "y"⟩]
        ⟨7, 12, "y", "img.png", none, "y"⟩ ∧
    asset_id_of "h"
        [⟨0, 5, "x", "img.png", none, "x"⟩, ⟨7, 12, "y", "img.png", none, "y"⟩]
        ⟨0, 5, "x", "img.png", none, "x"⟩ = "h_img_000" := by
  constructor
  · exact C5_target_dedup.1 "h"
      [⟨0, 5, "x", "img.png", none, "x"⟩, ⟨7, 12, "y", "img.png", none, "y"⟩]
      ⟨0, 5, "x", "img.png", none, "x"⟩ ⟨7, 12, "y", "img.png", none, "y"⟩
      (by decide) (by decide) (by decide)
  · decide

/-- C10: invariant — every media asset returned by the rewrite carries a
non-blank caption; a blank lookup value with a blank fallback collapses
to the fixed placeholder `"[이미지]"`; and every substituted core is the
stripped caption of one of the document's targets, hence non-blank. -/
theorem C10_caption_invariant :
    (∀ env cl b, strip_str (bucket_caption env cl b) ≠ "") ∧
    (∀ env cl (b : MediaBucket), strip_str ((assoc_find cl b.id).getD "") = "" →
      strip_str (fallback_caption env b) = "" →
      bucket_caption env cl b = "[이미지]") ∧
    (∀ env raw_text source_hash cache0 cfp cc uo dc,
      ∀ a ∈ (rewrite_markdown_with_captions env raw_text source_hash cache0
        cfp cc uo dc).assets, strip_str a.caption ≠ "") ∧
    (∀ env cl source_hash entries (e : MediaEntry), e ∈ entries →
      ∃ b' ∈ mk_buckets source_hash entries,
        replacement_core (caption_by_asset_of env cl (mk_buckets source_hash entries))
            (asset_id_of source_hash entries e) e =
          strip_str (bucket_caption env cl b') ∧
        strip_str (bucket_caption env cl b') ≠ "") := by
  refine ⟨bucket_caption_nonblank, ?_, ?_, ?_⟩
  · intro env cl b hc hf
    unfold bucket_caption
    have hcond : ¬ strip_str (if (assoc_find cl b.id).getD "" ≠ "" then
        (assoc_find cl b.id).getD "" else fallback_caption env b) ≠ "" := by
      by_cases h : (assoc_find cl b.id).getD "" ≠ ""
      · rw [if_pos h]
        exact fun hh => hh hc
      · rw [if_neg h]
        exact fun hh => hh hf
    rw [if_neg hcond]
  · intro env raw_text source_hash cache0 cfp cc uo dc a ha
    unfold rewrite_markdown_with_captions at ha
    by_cases htags : (find_image_tags raw_text).isEmpty
    · rw [if_pos htags] at ha
      simp at ha
    · rw [if_neg htags] at ha
      simp only [List.mem_map] at ha
      obtain ⟨b, _, rfl⟩ := ha
      exact bucket_caption_nonblank env _ b
  · intro env cl source_hash entries e he
    obtain ⟨b', hb', hcore⟩ := replacement_core_spec env cl source_hash entries e he
    exact ⟨b', hb', hcore, bucket_caption_nonblank env cl b'⟩

/-- C10 (witness): a target with no caption, a whitespace-only raw path
and no alt candidates gets the placeholder. -/
theorem C10_witness :
    strip_str ((assoc_find ([] : List (String × String)) "h_img_000").getD "") = "" ∧
    strip_str (fallback_caption test_env ⟨"h_img_000", none, " ", []⟩) = "" ∧
    bucket_caption test_env [] ⟨"h_img_000", none, " ", []⟩ = "[이미지]" :=
  ⟨by decide, by decide,
    C10_caption_invariant.2.1 test_env [] ⟨"h_img_000", none, " ", []⟩
      (by decide) (by decide)⟩

/-- C8 (witness): the empty-input case and a one-document run with one
chunk, whose flag is true. -/
theorem C8_witness :
    run_conversion_pipeline true [] [] =
      .ok { chunk_ids := [], needs_embedding_refresh := false } ∧
    (⟨["chnk_h_0000"], true⟩ : ManifestSim).needs_embedding_refresh = true := by
  constructor
  · exact C8_refresh_flag.1 true []
  · exact C8_refresh_flag.2 true
      [⟨"a", "a.md", false, [], .ok (), .ok [⟨"h_0000", "txt"⟩]⟩] []
      ⟨["chnk_h_0000"], true⟩ (by rfl) rfl (by decide)

end GeminiMCP
